import Mathlib

/-!
Verification of the `rust-property` derive macro (src/parse.rs, src/generate.rs,
src/lib.rs) against its natural-language specification.

The Rust code is shallowly embedded: configuration enums and structs follow
parse.rs, the type classifier follows generate.rs, and the per-field method
synthesizer, the PartialOrd generator and the crate-default lifecycle follow
lib.rs and parse.rs.  Fallible Rust code (syn parse errors and panics) is
modelled with `Except Unit`.
-/

/-- Scope at which a configuration is being resolved (parse.rs `PropertyType`). -/
inductive PropertyType where
  | Crate
  | Container
  | Field
deriving DecidableEq, Repr

/-- parse.rs `GetTypeConf`.  (lib.rs spells the first variant `NotSet`; it is the
`"auto"` choice of parse.rs and both denote classifier-driven derivation.) -/
inductive GetTypeConf where
  | Auto
  | Ref
  | Copy_
  | Clone_
deriving DecidableEq, Repr

/-- parse.rs `SetTypeConf`. -/
inductive SetTypeConf where
  | Ref
  | Own
  | None_
  | Replace
deriving DecidableEq, Repr

/-- parse.rs `VisibilityConf`. -/
inductive VisibilityConf where
  | Disable
  | Public
  | Crate
  | Private
deriving DecidableEq, Repr

/-- parse.rs `SortTypeConf`. -/
inductive SortTypeConf where
  | Ascending
  | Descending
deriving DecidableEq, Repr

/-- parse.rs `MethodNameConf`; `Format` holds the `prefix`/`suffix` pair. -/
inductive MethodNameConf where
  | Name (name : String)
  | Format (pre suf : String)
deriving DecidableEq, Repr

/-- parse.rs `GetFieldConf`. -/
structure GetFieldConf where
  vis : VisibilityConf
  name : MethodNameConf
  typ : GetTypeConf
deriving DecidableEq, Repr

/-- parse.rs `SetFieldConf`. -/
structure SetFieldConf where
  vis : VisibilityConf
  name : MethodNameConf
  typ : SetTypeConf
  strip_option : Bool
deriving DecidableEq, Repr

/-- parse.rs `MutFieldConf`. -/
structure MutFieldConf where
  vis : VisibilityConf
  name : MethodNameConf
deriving DecidableEq, Repr

/-- parse.rs `OrdFieldConf`. -/
structure OrdFieldConf where
  number : Option Nat
  sort_type : SortTypeConf
deriving DecidableEq, Repr

/-- parse.rs `FieldConf`. -/
structure FieldConf where
  get : GetFieldConf
  set : SetFieldConf
  mut_ : MutFieldConf
  ord : OrdFieldConf
  skip : Bool
deriving DecidableEq, Repr

/-- parse.rs `impl Default for FieldConf`. -/
def FieldConf.default : FieldConf :=
  { get := { vis := VisibilityConf.Crate
             name := MethodNameConf.Format "" ""
             typ := GetTypeConf.Auto }
    set := { vis := VisibilityConf.Crate
             name := MethodNameConf.Format "set_" ""
             typ := SetTypeConf.Ref
             strip_option := false }
    mut_ := { vis := VisibilityConf.Crate
              name := MethodNameConf.Format "mut_" "" }
    ord := { number := none
             sort_type := SortTypeConf.Ascending }
    skip := false }

/-- parse.rs `SortTypeConf::is_ascending`. -/
def SortTypeConf.is_ascending : SortTypeConf → Bool
  | SortTypeConf.Ascending => true
  | SortTypeConf.Descending => false

/-- parse.rs `MethodNameConf::complete`: an explicit name, or
`format!("\x7b\x7d\x7b\x7d\x7b\x7d", prefix, field_name, suffix)`. -/
def MethodNameConf.complete (c : MethodNameConf) (field_name : String) : String :=
  match c with
  | MethodNameConf.Name n => n
  | MethodNameConf.Format pre suf => pre ++ field_name ++ suf

/-- parse.rs `VisibilityConf::to_ts` output: the emitted visibility tokens.
`Private` emits the empty token stream. -/
inductive VisTokens where
  | Pub
  | PubCrate
  | Priv
deriving DecidableEq, Repr

/-- parse.rs `VisibilityConf::to_ts`; `Disable` yields `None` (method omitted). -/
def VisibilityConf.to_ts : VisibilityConf → Option VisTokens
  | VisibilityConf.Disable => none
  | VisibilityConf.Public => some VisTokens.Pub
  | VisibilityConf.Crate => some VisTokens.PubCrate
  | VisibilityConf.Private => some VisTokens.Priv

mutual

/-- Shallow embedding of `syn::Type`, restricted to the structure that
`FieldType::from_type` inspects: a path type is a list of segments; an array
type carries its element type (its length expression is never inspected and is
elided); every other `syn::Type` variant is collapsed into `OtherTy`. -/
inductive SynType where
  | Path : List PathSeg → SynType
  | Array : SynType → SynType
  | OtherTy : SynType

/-- One `syn::PathSegment`: an identifier together with its path arguments. -/
inductive PathSeg where
  | mk : String → PathArgs → PathSeg

/-- `syn::PathArguments`. -/
inductive PathArgs where
  | NoArgs : PathArgs
  | AngleBracketed : List GenArg → PathArgs
  | Parenthesized : PathArgs

/-- `syn::GenericArgument`: either a type argument, or any other kind
(lifetime, const, binding, constraint), which `from_type` never accepts. -/
inductive GenArg where
  | TypeArg : SynType → GenArg
  | OtherArg : GenArg

end

/-- The identifier of a path segment. -/
def PathSeg.ident : PathSeg → String
  | PathSeg.mk s _ => s

/-- The arguments of a path segment. -/
def PathSeg.args : PathSeg → PathArgs
  | PathSeg.mk _ a => a

/-- generate.rs `FieldType`: the semantic classification of a declared field
type.  `Option_` keeps the token list of the generic arguments, as
`quote!(#args)` does. -/
inductive FieldType where
  | Number
  | Boolean
  | Character
  | String_
  | Array (elem : SynType)
  | Vector (elem : SynType)
  | Option_ (args : List GenArg)
  | Unhandled

/-- generate.rs `FieldType::from_type`.  The `unreachable!()` calls in the
`"Vec"` and `"Option"` arms (and the `inner.args[0]` out-of-bounds index) are
modelled as `Except.error ()`: they are panics of the running macro. -/
def FieldType.from_type : SynType → Except Unit FieldType
  | SynType.Path segs =>
    match segs with
    | [seg] =>
      match seg.ident with
      | "f32" | "f64" => Except.ok FieldType.Number
      | "i8" | "i16" | "i32" | "i64" | "i128" | "isize" => Except.ok FieldType.Number
      | "u8" | "u16" | "u32" | "u64" | "u128" | "usize" => Except.ok FieldType.Number
      | "bool" => Except.ok FieldType.Boolean
      | "char" => Except.ok FieldType.Character
      | "String" => Except.ok FieldType.String_
      | "Vec" =>
        match seg.args with
        | PathArgs.AngleBracketed args =>
          match args with
          | GenArg.TypeArg inner_type :: _ => Except.ok (FieldType.Vector inner_type)
          | GenArg.OtherArg :: _ => Except.error ()
          | [] => Except.error ()
        | _ => Except.error ()
      | "Option" =>
        match seg.args with
        | PathArgs.AngleBracketed args => Except.ok (FieldType.Option_ args)
        | _ => Except.error ()
      | _ => Except.ok FieldType.Unhandled
    | _ => Except.ok FieldType.Unhandled
  | SynType.Array elem => Except.ok (FieldType.Array elem)
  | SynType.OtherTy => Except.ok FieldType.Unhandled

/-- generate.rs `GetType`: which getter body is emitted.  `Slice` keeps the
element type of the emitted `&[elem]` slice; `Option_` keeps the argument
tokens of the emitted `Option<&args>`. -/
inductive GetType where
  | Ref
  | Copy_
  | Clone_
  | String_
  | Slice (elem : SynType)
  | Option_ (args : List GenArg)

/-- generate.rs `GetType::from_field_type`: the classifier-driven (Auto)
getter selection.  An `Array` contributes its element type to the slice, a
`Vector` its inner type. -/
def GetType.from_field_type : FieldType → GetType
  | FieldType.Number => GetType.Copy_
  | FieldType.Boolean => GetType.Copy_
  | FieldType.Character => GetType.Copy_
  | FieldType.String_ => GetType.String_
  | FieldType.Array elem => GetType.Slice elem
  | FieldType.Vector elem => GetType.Slice elem
  | FieldType.Option_ args => GetType.Option_ args
  | FieldType.Unhandled => GetType.Ref

/-- One field of the processed struct (parse.rs `FieldDef`, with the
identifier as a string). -/
structure FieldDef where
  ident : String
  ty : SynType
  conf : FieldConf

/-- The processed container (parse.rs `ContainerDef` / the `PropertyDef` alias
used by lib.rs; generics are carried through unchanged and elided here). -/
structure PropertyDef where
  name : String
  fields : List FieldDef

/-- The argument convention of an emitted setter (lib.rs, setter section of
`derive_property_for_field`): a `Vector`-classified field takes an
`impl IntoIterator<Item = T>` with `T: Into<elem>` and collects it; every
other classification takes one `T: Into<field_type>` value and stores
`val.into()`. -/
inductive SetArg where
  | IterInto (elem : SynType)
  | IntoField

/-- The kind of an emitted method: a getter with its `GetType`-selected body,
a setter with its argument convention and return convention, or the mutable
accessor `&mut self.field`. -/
inductive MethodKind where
  | Getter (g : GetType)
  | Setter (arg : SetArg) (typ : SetTypeConf)
  | Mutter

/-- One synthesized method declaration: visibility tokens, method name, kind. -/
structure MethodDecl where
  vis : VisTokens
  name : String
  kind : MethodKind

/-- lib.rs `derive_property_for_field`: the getter (if `get` visibility is not
`Disable`), then the setter (if `set` visibility is not `Disable`), then the
mutable accessor (if `mut` visibility is not `Disable`), in push order.
Classification runs first; its panic aborts the macro. -/
def derive_property_for_field (field : FieldDef) : Except Unit (List MethodDecl) := do
  let prop_field_type ← FieldType.from_type field.ty
  let getM : Option MethodDecl :=
    (VisibilityConf.to_ts field.conf.get.vis).map (fun visibility =>
      { vis := visibility
        name := field.conf.get.name.complete field.ident
        kind := MethodKind.Getter
          (match field.conf.get.typ with
           | GetTypeConf.Auto => GetType.from_field_type prop_field_type
           | GetTypeConf.Ref => GetType.Ref
           | GetTypeConf.Copy_ => GetType.Copy_
           | GetTypeConf.Clone_ => GetType.Clone_) })
  let setM : Option MethodDecl :=
    (VisibilityConf.to_ts field.conf.set.vis).map (fun visibility =>
      { vis := visibility
        name := field.conf.set.name.complete field.ident
        kind :=
          match prop_field_type with
          | FieldType.Vector inner_type =>
            MethodKind.Setter (SetArg.IterInto inner_type) field.conf.set.typ
          | _ => MethodKind.Setter SetArg.IntoField field.conf.set.typ })
  let mutM : Option MethodDecl :=
    (VisibilityConf.to_ts field.conf.mut_.vis).map (fun visibility =>
      { vis := visibility
        name := field.conf.mut_.name.complete field.ident
        kind := MethodKind.Mutter })
  pure (getM.toList ++ setM.toList ++ mutM.toList)

/-- Runtime values a field can hold, for executing generated method bodies. -/
inductive Value where
  | Num (n : Int)
  | Bl (b : Bool)
  | Ch (c : Char)
  | Str (s : String)
  | Arr (vs : List Value)
  | Opt (o : Option Value)
  | Other (k : Nat)

/-- Observable result of a generated getter body. -/
inductive GetOut where
  | copied (v : Value)
  | viewed (v : Value)
  | cloned (v : Value)
  | strView (s : String)
  | sliceView (vs : List Value)
  | optView (o : Option Value)

/-- Semantics of the getter bodies emitted by lib.rs: `Copy_` is `self.field`,
`Ref` is `&self.field`, `Clone_` is `self.field.clone()`, `String_` is
`&self.field[..]`, `Slice` is `&self.field[..]`, `Option_` is
`self.field.as_ref()`.  `none` marks a body applied to a value of the wrong
shape (impossible for well-typed generated code). -/
def evalGet : GetType → Value → Option GetOut
  | GetType.Copy_, v => some (GetOut.copied v)
  | GetType.Ref, v => some (GetOut.viewed v)
  | GetType.Clone_, v => some (GetOut.cloned v)
  | GetType.String_, Value.Str s => some (GetOut.strView s)
  | GetType.String_, _ => none
  | GetType.Slice _, Value.Arr vs => some (GetOut.sliceView vs)
  | GetType.Slice _, _ => none
  | GetType.Option_ _, Value.Opt o => some (GetOut.optView o)
  | GetType.Option_ _, _ => none

/-- What a generated setter returns. -/
inductive SetReturn where
  | MutSelf
  | OwnedSelf
  | Unit_
  | Prev (v : Value)

/-- The input passed to a generated setter: one value, or (for the iterator
form) a finite sequence of values. -/
inductive SetInput where
  | One (v : Value)
  | Many (vs : List Value)

/-- Semantics of the setter bodies emitted by lib.rs, as a function of the
pre-call field value: the non-`Vector` form stores `val.into()`; the `Vector`
form stores `val.into_iter().map(Into::into).collect()`; the return value
follows `SetTypeConf` (`Ref` returns `&mut self`, `Own` returns `self` by
value, `None_` returns nothing, `Replace` returns
`::core::mem::replace(&mut self.field, new)`, i.e. the previous field value).
The `Into` conversion is the parameter `into`.  Output is the new field value
paired with the returned value; `none` marks an arity mismatch. -/
def execSet (arg : SetArg) (typ : SetTypeConf) (into : Value → Value)
    (input : SetInput) (field : Value) : Option (Value × SetReturn) :=
  match arg, input with
  | SetArg.IntoField, SetInput.One v =>
    some (into v,
      match typ with
      | SetTypeConf.Ref => SetReturn.MutSelf
      | SetTypeConf.Own => SetReturn.OwnedSelf
      | SetTypeConf.None_ => SetReturn.Unit_
      | SetTypeConf.Replace => SetReturn.Prev field)
  | SetArg.IterInto _, SetInput.Many vs =>
    some (Value.Arr (vs.map into),
      match typ with
      | SetTypeConf.Ref => SetReturn.MutSelf
      | SetTypeConf.Own => SetReturn.OwnedSelf
      | SetTypeConf.None_ => SetReturn.Unit_
      | SetTypeConf.Replace => SetReturn.Prev field)
  | _, _ => none

/-- The ordinal of an ordinal-carrying field (`f.conf.ord.number.unwrap()`;
lib.rs only reads it on fields where it is `some`). -/
def ord_key (f : FieldDef) : Nat := f.conf.ord.number.getD 0

/-- Stable insertion of a later field behind all already-placed fields with a
smaller-or-equal ordinal (the effect of `sort_by` with `n1.cmp(&n2)`). -/
def insert_by_ord (x : FieldDef) : List FieldDef → List FieldDef
  | [] => [x]
  | y :: ys => if ord_key y ≤ ord_key x then y :: insert_by_ord x ys else x :: y :: ys

/-- lib.rs `ordered.sort_by(...)`: stable ascending sort by ordinal. -/
def sort_by_ord (l : List FieldDef) : List FieldDef :=
  l.foldl (fun acc f => insert_by_ord f acc) []

/-- lib.rs `ordered.windows(2).any(...)`: some adjacent pair of the sorted
list carries the same serial number. -/
def has_same_serial_number : List FieldDef → Bool
  | a :: b :: rest => (ord_key a == ord_key b) || has_same_serial_number (b :: rest)
  | _ => false

/-- lib.rs `implement_traits`: collect the ordinal-carrying fields, sort them
ascending by ordinal, panic on a duplicate serial number, otherwise return the
ordered field list from which the `PartialEq`/`PartialOrd` impls are emitted
(`none` when no field carries an ordinal). -/
def implement_traits (property : PropertyDef) : Except Unit (Option (List FieldDef)) :=
  let ordered := sort_by_ord (property.fields.filter (fun f => f.conf.ord.number.isSome))
  if ordered.isEmpty then Except.ok none
  else if has_same_serial_number ordered then Except.error ()
  else Except.ok (some ordered)

/-- The generated `partial_cmp` body (lib.rs `partial_ord_stmt`): for each
ordered field, `let result = self.f.partial_cmp(&other.f)` when its direction
is ascending, with the operands swapped when descending; `if result !=
Some(Ordering::Equal) \x7b return result; \x7d`; after all fields,
`Some(Ordering::Equal)`.  Instances are valuations of field names and `pc` is
the per-type `partial_cmp`. -/
def gen_ord_cmp (pc : Value → Value → Option Ordering) :
    List FieldDef → (String → Value) → (String → Value) → Option Ordering
  | [], _, _ => some Ordering.eq
  | f :: rest, self, other =>
    let result :=
      if f.conf.ord.sort_type.is_ascending then pc (self f.ident) (other f.ident)
      else pc (other f.ident) (self f.ident)
    if result ≠ some Ordering.eq then result else gen_ord_cmp pc rest self other

/-- The generated `eq` body (lib.rs `partial_eq_stmt`): the conjunction, in
ordinal order, of `self.f == other.f`, with `eqv` the per-type equality. -/
def gen_ord_eq (eqv : Value → Value → Bool) :
    List FieldDef → (String → Value) → (String → Value) → Bool
  | [], _, _ => true
  | f :: rest, self, other =>
    eqv (self f.ident) (other f.ident) && gen_ord_eq eqv rest self other

/-- Modelled from the spec's ordering description: compare each field in the
given (ordinal) order, swapping the operands exactly on `desc` fields; the
first comparison that is not "equal" is the overall result; if every field
compares equal the overall result is "equal". -/
def spec_local_cmp (pc : Value → Value → Option Ordering) (f : FieldDef)
    (self other : String → Value) : Option Ordering :=
  match f.conf.ord.sort_type with
  | SortTypeConf.Descending => pc (other f.ident) (self f.ident)
  | SortTypeConf.Ascending => pc (self f.ident) (other f.ident)

/-- Modelled from the spec's ordering description (see `spec_local_cmp`). -/
def spec_ord_cmp (pc : Value → Value → Option Ordering) (ordered : List FieldDef)
    (self other : String → Value) : Option Ordering :=
  match (ordered.map (fun f => spec_local_cmp pc f self other)).find?
      (fun r => decide (r ≠ some Ordering.eq)) with
  | some r => r
  | none => some Ordering.eq

/-- Boolean success test for `Except Unit`. -/
def isOkB {α : Type} : Except Unit α → Bool
  | Except.ok _ => true
  | Except.error _ => false

/-- lib.rs `derive_property` (output part): fold the per-field synthesis over
the non-skipped fields, then run `implement_traits`; a panic anywhere aborts
the whole expansion with no output. -/
def derive_property (property : PropertyDef) : Except Unit (List MethodDecl × Option (List FieldDef)) := do
  let methods ← property.fields.foldlM
    (fun r f => do
      if f.conf.skip then pure r
      else do
        let ms ← derive_property_for_field f
        pure (r ++ ms))
    ([] : List MethodDecl)
  let traits ← implement_traits property
  pure (methods, traits)

/-- Observable steps of one `derive_property` run, in execution order. -/
inductive Event where
  | SynthField (name : String)
  | FieldPanic (name : String)
  | DupOrdinalPanic
  | EmitTraits
deriving DecidableEq, Repr

/-- The per-field synthesis steps of lib.rs `derive_property`, in field order:
each non-skipped field is synthesized (its accessor declarations are built)
before `implement_traits` ever runs; a classification panic stops the fold. -/
def synth_events : List FieldDef → List Event
  | [] => []
  | f :: rest =>
    if f.conf.skip then synth_events rest
    else
      match derive_property_for_field f with
      | Except.error _ => [Event.FieldPanic f.ident]
      | Except.ok _ => Event.SynthField f.ident :: synth_events rest

/-- The `implement_traits` step of lib.rs `derive_property`: nothing when no
field carries an ordinal, the duplicate-serial-number panic, or the emission
of the `PartialEq`/`PartialOrd` impls. -/
def traits_events (property : PropertyDef) : List Event :=
  let ordered := sort_by_ord (property.fields.filter (fun f => f.conf.ord.number.isSome))
  if ordered.isEmpty then []
  else if has_same_serial_number ordered then [Event.DupOrdinalPanic]
  else [Event.EmitTraits]

/-- Whether an event is a panic of the per-field fold. -/
def Event.is_field_panic : Event → Bool
  | Event.FieldPanic _ => true
  | _ => false

/-- Execution trace of lib.rs `derive_property`: all per-field synthesis
steps run first (statement order in `derive_property`), and only then the
ordinal handling of `implement_traits`. -/
def derive_property_events (property : PropertyDef) : List Event :=
  let se := synth_events property.fields
  if se.any Event.is_field_panic then se else se ++ traits_events property

/-- The process-wide mutable state of parse.rs: the `CRATE_CONF` static and
the `CALL_COUNT` atomic counter.  (The `INIT_DEFAULT` `Once` is always in sync
with `CRATE_CONF.is_some()` and is elided.) -/
structure CrateState where
  crate_conf : Option FieldConf
  call_count : Nat
deriving DecidableEq, Repr

/-- The freshly started process: no crate default, counter zero. -/
def CrateState.initial : CrateState := { crate_conf := none, call_count := 0 }

/-- parse.rs `CrateConfDef::set_default_conf`: panics when the crate default
is already set, panics when `CALL_COUNT` is nonzero, and otherwise stores the
configuration (via `INIT_DEFAULT.call_once`). -/
def set_default_conf (conf : FieldConf) (s : CrateState) : Except Unit CrateState :=
  if s.crate_conf.isSome then Except.error ()
  else if s.call_count > 0 then Except.error ()
  else Except.ok { s with crate_conf := some conf }

/-- parse.rs `CrateConfDef::get_default_conf`: increments `CALL_COUNT` and
returns the stored crate default, or `FieldConf::default()` when unset.  It is
called once per resolved container configuration. -/
def get_default_conf (s : CrateState) : FieldConf × CrateState :=
  (s.crate_conf.getD FieldConf.default, { s with call_count := s.call_count + 1 })

/-- `syn::Lit`: a string literal or any other literal kind. -/
inductive SynLit where
  | Str (s : String)
  | OtherLit
deriving DecidableEq, Repr

mutual

/-- `syn::Meta`: a bare path, a list `path(...)`, or a name-value pair.
Paths are modelled as their segment identifiers (leading colons elided;
`Path::is_ident` holds exactly for a one-segment path with that ident). -/
inductive SynMeta where
  | MPath : List String → SynMeta
  | MList : List String → List SynNested → SynMeta
  | MNameValue : List String → SynLit → SynMeta

/-- `syn::NestedMeta`. -/
inductive SynNested where
  | MetaItem : SynMeta → SynNested
  | LitItem : SynLit → SynNested

end

/-- parse.rs `VISIBILITY_OPTIONS`. -/
def VISIBILITY_OPTIONS : List String := ["disable", "public", "crate", "private"]

/-- parse.rs `STRIP_OPTION`. -/
def STRIP_OPTION : List String := ["strip_option"]

/-- parse.rs `SORT_TYPE_OPTIONS`. -/
def SORT_TYPE_OPTIONS : List String := ["asc", "desc"]

/-- parse.rs `NAME_OPTION`. -/
def NAME_OPTION : String × Option (List String) := ("name", none)

/-- parse.rs `PREFIX_OPTION`. -/
def PREFIX_OPTION : String × Option (List String) := ("prefix", none)

/-- parse.rs `SUFFIX_OPTION`. -/
def SUFFIX_OPTION : String × Option (List String) := ("suffix", none)

/-- parse.rs `GET_TYPE_OPTIONS`. -/
def GET_TYPE_OPTIONS : String × Option (List String) :=
  ("type", some ["auto", "ref", "copy", "clone"])

/-- parse.rs `SET_TYPE_OPTIONS`. -/
def SET_TYPE_OPTIONS : String × Option (List String) :=
  ("type", some ["ref", "own", "none", "replace"])

/-- The collection loop of `FieldConf::apply_attrs` for a `Meta::List`: split
the nested items into the path-parameter set and the name-value map (insertion
order kept), rejecting duplicates, non-string literal values, literals, and
nested lists. -/
def collect_params : List SynNested → List (List String) → List (List String × String) →
    Except Unit (List (List String) × List (List String × String))
  | [], pp, nvp => Except.ok (pp, nvp)
  | SynNested.MetaItem (SynMeta.MPath p) :: rest, pp, nvp =>
    if pp.contains p then Except.error ()
    else collect_params rest (pp ++ [p]) nvp
  | SynNested.MetaItem (SynMeta.MNameValue p lit) :: rest, pp, nvp =>
    match lit with
    | SynLit.Str s =>
      if (nvp.map Prod.fst).contains p then Except.error ()
      else collect_params rest pp (nvp ++ [(p, s)])
    | SynLit.OtherLit => Except.error ()
  | SynNested.MetaItem (SynMeta.MList _ _) :: _, _, _ => Except.error ()
  | SynNested.LitItem _ :: _, _, _ => Except.error ()

/-- Inner loop of parse.rs `check_path_params`: place one path parameter into
the slot of the first word-group containing it ("set twice" when the slot is
taken, "unknown" when no group matches). -/
def find_assign (p : List String) : List (List String) → List (Option String) →
    Except Unit (List (Option String))
  | g :: gs, r :: rs =>
    match g.find? (fun opt => p == [opt]) with
    | some opt =>
      match r with
      | some _ => Except.error ()
      | none => Except.ok (some opt :: rs)
    | none =>
      match find_assign p gs rs with
      | Except.ok rs' => Except.ok (r :: rs')
      | Except.error e => Except.error e
  | _, _ => Except.error ()

/-- parse.rs `check_path_params`. -/
def check_path_params (pp : List (List String)) (options : List (List String)) :
    Except Unit (List (Option String)) :=
  pp.foldlM (fun res p => find_assign p options res) (options.map (fun _ => none))

/-- Inner loop of parse.rs `check_namevalue_params`: match one name-value pair
against the recognized keys; a key whose value set is constrained only
matches when the value is in the set, and an unmatched pair is "unknown". -/
def match_namevalue (n : List String) (v : String) :
    List (String × Option (List String)) → Except Unit (String × String)
  | [] => Except.error ()
  | (k, group?) :: rest =>
    if n == [k] then
      match group? with
      | some group =>
        if group.contains v then Except.ok (k, v) else match_namevalue n v rest
      | none => Except.ok (k, v)
    else match_namevalue n v rest

/-- parse.rs `check_namevalue_params`. -/
def check_namevalue_params (nvp : List (List String × String))
    (options : List (String × Option (List String))) :
    Except Unit (List (String × String)) :=
  nvp.foldlM
    (fun res pv => do
      let kv ← match_namevalue pv.fst pv.snd options
      pure (res ++ [kv]))
    []

/-- Lookup in the result of `check_namevalue_params` (the `HashMap::get`). -/
def get_nv (nvs : List (String × String)) (k : String) : Option String :=
  (nvs.find? (fun kv => kv.fst == k)).map Prod.snd

/-- parse.rs `GetTypeConf::parse_from_input`. -/
def GetTypeConf.parse_from_input (nvs : List (String × String)) :
    Except Unit (Option GetTypeConf) :=
  match get_nv nvs "type" with
  | none => Except.ok none
  | some "auto" => Except.ok (some GetTypeConf.Auto)
  | some "ref" => Except.ok (some GetTypeConf.Ref)
  | some "copy" => Except.ok (some GetTypeConf.Copy_)
  | some "clone" => Except.ok (some GetTypeConf.Clone_)
  | some _ => Except.error ()

/-- parse.rs `SetTypeConf::parse_from_input`. -/
def SetTypeConf.parse_from_input (nvs : List (String × String)) :
    Except Unit (Option SetTypeConf) :=
  match get_nv nvs "type" with
  | none => Except.ok none
  | some "ref" => Except.ok (some SetTypeConf.Ref)
  | some "own" => Except.ok (some SetTypeConf.Own)
  | some "none" => Except.ok (some SetTypeConf.None_)
  | some "replace" => Except.ok (some SetTypeConf.Replace)
  | some _ => Except.error ()

/-- parse.rs `VisibilityConf::parse_from_input`. -/
def VisibilityConf.parse_from_input (input : Option String) :
    Except Unit (Option VisibilityConf) :=
  match input with
  | none => Except.ok none
  | some "disable" => Except.ok (some VisibilityConf.Disable)
  | some "public" => Except.ok (some VisibilityConf.Public)
  | some "crate" => Except.ok (some VisibilityConf.Crate)
  | some "private" => Except.ok (some VisibilityConf.Private)
  | some _ => Except.error ()

/-- parse.rs `SortTypeConf::parse_from_input`. -/
def SortTypeConf.parse_from_input (input : Option String) :
    Except Unit (Option SortTypeConf) :=
  match input with
  | none => Except.ok none
  | some "asc" => Except.ok (some SortTypeConf.Ascending)
  | some "desc" => Except.ok (some SortTypeConf.Descending)
  | some _ => Except.error ()

/-- parse.rs `MethodNameConf::parse_from_input`: `name` excludes
`prefix`/`suffix`; a missing side of the pair defaults to the empty string. -/
def MethodNameConf.parse_from_input (nvs : List (String × String)) :
    Except Unit (Option MethodNameConf) :=
  match get_nv nvs "name" with
  | some name =>
    if (get_nv nvs "prefix").isSome || (get_nv nvs "suffix").isSome then Except.error ()
    else Except.ok (some (MethodNameConf.Name name))
  | none =>
    match get_nv nvs "prefix", get_nv nvs "suffix" with
    | some pre, some suf => Except.ok (some (MethodNameConf.Format pre suf))
    | some pre, none => Except.ok (some (MethodNameConf.Format pre ""))
    | none, some suf => Except.ok (some (MethodNameConf.Format "" suf))
    | none, none => Except.ok none

/-- Loop body of parse.rs `OrdFieldConf::parse_from_path_params`: a sort-order
word goes to the first slot ("set twice" if taken), a `_`-prefixed token must
be a serial number, is only legal at field scope and goes to the second slot
("set twice" if taken); anything else is unknown.  A multi-segment path fails
`get_ident`. -/
def ord_scan (options : List String) (prop_type : PropertyType) :
    List (List String) → Option String → Option Nat →
    Except Unit (Option String × Option Nat)
  | [], st?, n? => Except.ok (st?, n?)
  | p :: rest, st?, n? =>
    match p with
    | [s] =>
      if options.contains s then
        if st?.isSome then Except.error ()
        else ord_scan options prop_type rest (options.find? (fun opt => opt == s)) n?
      else if s.take 1 == "_" then
        if prop_type ≠ PropertyType.Field then Except.error ()
        else
          match (s.drop 1).toNat? with
          | some n =>
            if n?.isSome then Except.error ()
            else ord_scan options prop_type rest st? (some n)
          | none => Except.error ()
      else Except.error ()
    | _ => Except.error ()

/-- parse.rs `OrdFieldConf::parse_from_path_params`: scan the path
parameters, then reject a field-scope `ord` group with no serial number. -/
def OrdFieldConf.parse_from_path_params (pp : List (List String)) (options : List String)
    (prop_type : PropertyType) : Except Unit (Option String × Option Nat) :=
  match ord_scan options prop_type pp none none with
  | Except.error e => Except.error e
  | Except.ok (st?, n?) =>
    if prop_type == PropertyType.Field && n?.isNone then Except.error ()
    else Except.ok (st?, n?)

/-- The `"get"` arm of `FieldConf::apply_attrs`. -/
def apply_get (conf : FieldConf) (pp : List (List String))
    (nvp : List (List String × String)) : Except Unit FieldConf := do
  let paths ← check_path_params pp [VISIBILITY_OPTIONS]
  let nvs ← check_namevalue_params nvp [NAME_OPTION, PREFIX_OPTION, SUFFIX_OPTION, GET_TYPE_OPTIONS]
  let vis? ← VisibilityConf.parse_from_input (paths.getD 0 none)
  let name? ← MethodNameConf.parse_from_input nvs
  let typ? ← GetTypeConf.parse_from_input nvs
  let g := conf.get
  let g := match vis? with | some c => { g with vis := c } | none => g
  let g := match name? with | some c => { g with name := c } | none => g
  let g := match typ? with | some c => { g with typ := c } | none => g
  pure { conf with get := g }

/-- The `"set"` arm of `FieldConf::apply_attrs`; note the final unconditional
`self.set.strip_option = paths[1].is_some()`. -/
def apply_set (conf : FieldConf) (pp : List (List String))
    (nvp : List (List String × String)) : Except Unit FieldConf := do
  let paths ← check_path_params pp [VISIBILITY_OPTIONS, STRIP_OPTION]
  let nvs ← check_namevalue_params nvp [NAME_OPTION, PREFIX_OPTION, SUFFIX_OPTION, SET_TYPE_OPTIONS]
  let vis? ← VisibilityConf.parse_from_input (paths.getD 0 none)
  let name? ← MethodNameConf.parse_from_input nvs
  let typ? ← SetTypeConf.parse_from_input nvs
  let s := conf.set
  let s := match vis? with | some c => { s with vis := c } | none => s
  let s := match name? with | some c => { s with name := c } | none => s
  let s := match typ? with | some c => { s with typ := c } | none => s
  let s := { s with strip_option := (paths.getD 1 none).isSome }
  pure { conf with set := s }

/-- The `"mut"` arm of `FieldConf::apply_attrs`. -/
def apply_mut (conf : FieldConf) (pp : List (List String))
    (nvp : List (List String × String)) : Except Unit FieldConf := do
  let paths ← check_path_params pp [VISIBILITY_OPTIONS]
  let nvs ← check_namevalue_params nvp [NAME_OPTION, PREFIX_OPTION, SUFFIX_OPTION]
  let vis? ← VisibilityConf.parse_from_input (paths.getD 0 none)
  let name? ← MethodNameConf.parse_from_input nvs
  let m := conf.mut_
  let m := match vis? with | some c => { m with vis := c } | none => m
  let m := match name? with | some c => { m with name := c } | none => m
  pure { conf with mut_ := m }

/-- The `"ord"` arm of `FieldConf::apply_attrs`; note the final unconditional
`self.ord.number = number_opt`.  (The name-value parameters of an `ord` group
are collected but never validated by this arm.) -/
def apply_ord (conf : FieldConf) (pp : List (List String)) (prop_type : PropertyType) :
    Except Unit FieldConf := do
  let sn ← OrdFieldConf.parse_from_path_params pp SORT_TYPE_OPTIONS prop_type
  let st? ← SortTypeConf.parse_from_input sn.fst
  let o := conf.ord
  let o := match st? with | some c => { o with sort_type := c } | none => o
  pure { conf with ord := { o with number := sn.snd } }

/-- parse.rs `FieldConf::apply_attrs`: a bare path must be `skip` (and is
accepted with no scope check); a list is collected, must be non-empty, must
have a single-ident group name among `get`/`set`/`mut`/`ord`; a name-value
attribute is rejected. -/
def FieldConf.apply_attrs (conf : FieldConf) (meta : SynMeta) (prop_type : PropertyType) :
    Except Unit FieldConf :=
  match meta with
  | SynMeta.MPath p =>
    if p == ["skip"] then Except.ok { conf with skip := true }
    else Except.error ()
  | SynMeta.MList lpath nested => do
    let pn ← collect_params nested [] []
    if pn.fst.isEmpty && pn.snd.isEmpty then Except.error ()
    else
      match lpath with
      | [ident] =>
        match ident with
        | "get" => apply_get conf pn.fst pn.snd
        | "set" => apply_set conf pn.fst pn.snd
        | "mut" => apply_mut conf pn.fst pn.snd
        | "ord" => apply_ord conf pn.fst prop_type
        | _ => Except.error ()
      | _ => Except.error ()
  | SynMeta.MNameValue _ _ => Except.error ()

/-- The path of a nested path item, if any. -/
def path_of : SynNested → Option (List String)
  | SynNested.MetaItem (SynMeta.MPath p) => some p
  | _ => none

/-- The key and string value of a nested name-value item, if any. -/
def nv_of : SynNested → Option (List String × String)
  | SynNested.MetaItem (SynMeta.MNameValue p (SynLit.Str s)) => some (p, s)
  | _ => none

/-- Whether a path parameter equals one of a list of bare option words. -/
def matches_group (p : List String) (g : List String) : Bool :=
  g.any (fun o => p == [o])

/-- A group explicitly mentions a word of `opts` when one of its nested path
items is that bare word. -/
def mentions_word (nested : List SynNested) (opts : List String) : Bool :=
  (nested.filterMap path_of).any (fun p => matches_group p opts)

/-- A group explicitly mentions the name-value key `k` when one of its nested
name-value items has that key. -/
def mentions_key (nested : List SynNested) (k : String) : Bool :=
  (nested.filterMap nv_of).any (fun pv => pv.fst == [k])

/-- The serial number carried by an `ord` path token `_<N>`, if any. -/
def ord_value (p : List String) : Option Nat :=
  match p with
  | [s] => if s.take 1 == "_" then (s.drop 1).toNat? else none
  | _ => none

/-- The serial number a group's path tokens encode (first `_<N>` token; on a
successfully applied group there is at most one). -/
def encoded_ordinal (nested : List SynNested) : Option Nat :=
  (nested.filterMap path_of).findSome? ord_value

/-- Frame property of a successfully applied `get(...)` group: every
sub-configuration other than `get` is untouched, and each `get` sub-field is
untouched unless the group explicitly mentions it. -/
def get_frame (conf conf' : FieldConf) (nested : List SynNested) : Prop :=
  conf'.set = conf.set ∧ conf'.mut_ = conf.mut_ ∧ conf'.ord = conf.ord ∧
  conf'.skip = conf.skip ∧
  (mentions_word nested VISIBILITY_OPTIONS = false → conf'.get.vis = conf.get.vis) ∧
  (mentions_key nested "name" = false → mentions_key nested "prefix" = false →
    mentions_key nested "suffix" = false → conf'.get.name = conf.get.name) ∧
  (mentions_key nested "type" = false → conf'.get.typ = conf.get.typ)

/-- Behavior of a successfully applied `set(...)` group: every
sub-configuration other than `set` is untouched; visibility, name and
return-mode are untouched unless explicitly mentioned; `strip_option` is
always recomputed to whether the group mentions `strip_option`. -/
def set_frame (conf conf' : FieldConf) (nested : List SynNested) : Prop :=
  conf'.get = conf.get ∧ conf'.mut_ = conf.mut_ ∧ conf'.ord = conf.ord ∧
  conf'.skip = conf.skip ∧
  (mentions_word nested VISIBILITY_OPTIONS = false → conf'.set.vis = conf.set.vis) ∧
  (mentions_key nested "name" = false → mentions_key nested "prefix" = false →
    mentions_key nested "suffix" = false → conf'.set.name = conf.set.name) ∧
  (mentions_key nested "type" = false → conf'.set.typ = conf.set.typ) ∧
  conf'.set.strip_option = mentions_word nested STRIP_OPTION

/-- Frame property of a successfully applied `mut(...)` group. -/
def mut_frame (conf conf' : FieldConf) (nested : List SynNested) : Prop :=
  conf'.get = conf.get ∧ conf'.set = conf.set ∧ conf'.ord = conf.ord ∧
  conf'.skip = conf.skip ∧
  (mentions_word nested VISIBILITY_OPTIONS = false → conf'.mut_.vis = conf.mut_.vis) ∧
  (mentions_key nested "name" = false → mentions_key nested "prefix" = false →
    mentions_key nested "suffix" = false → conf'.mut_.name = conf.mut_.name)

/-- Behavior of a successfully applied `ord(...)` group: every
sub-configuration other than `ord` is untouched; the sort direction is
untouched unless an `asc`/`desc` word is mentioned; the ordinal is always
recomputed to the serial number the group itself encodes (`none` when it
encodes none, clearing an inherited one). -/
def ord_frame (conf conf' : FieldConf) (nested : List SynNested) : Prop :=
  conf'.get = conf.get ∧ conf'.set = conf.set ∧ conf'.mut_ = conf.mut_ ∧
  conf'.skip = conf.skip ∧
  (mentions_word nested SORT_TYPE_OPTIONS = false →
    conf'.ord.sort_type = conf.ord.sort_type) ∧
  conf'.ord.number = encoded_ordinal nested

/-- The corrected override discipline of `FieldConf::apply_attrs`, by
attribute shape. -/
def apply_frame_spec (conf : FieldConf) (meta : SynMeta) (conf' : FieldConf) : Prop :=
  match meta with
  | SynMeta.MPath _ => conf' = { conf with skip := true }
  | SynMeta.MNameValue _ _ => False
  | SynMeta.MList lpath nested =>
    (lpath = ["get"] → get_frame conf conf' nested) ∧
    (lpath = ["set"] → set_frame conf conf' nested) ∧
    (lpath = ["mut"] → mut_frame conf conf' nested) ∧
    (lpath = ["ord"] → ord_frame conf conf' nested)

/-- Modelled from the spec's description of the `Auto` getter: scalar shapes
are returned by copy, text as a read-only view of the full text, fixed and
growable sequences as a read-only slice view over the elements, optionals as
an optional reference to the inner value (absent exactly when the field is
absent, the inner value passed through unchanged), and anything else as a
read-only reference to the field. -/
def spec_auto_get (ft : FieldType) (v : Value) : Option GetOut :=
  match ft with
  | FieldType.Number => some (GetOut.copied v)
  | FieldType.Boolean => some (GetOut.copied v)
  | FieldType.Character => some (GetOut.copied v)
  | FieldType.String_ =>
    match v with
    | Value.Str s => some (GetOut.strView s)
    | _ => none
  | FieldType.Array _ =>
    match v with
    | Value.Arr vs => some (GetOut.sliceView vs)
    | _ => none
  | FieldType.Vector _ =>
    match v with
    | Value.Arr vs => some (GetOut.sliceView vs)
    | _ => none
  | FieldType.Option_ _ =>
    match v with
    | Value.Opt o => some (GetOut.optView o)
    | _ => none
  | FieldType.Unhandled => some (GetOut.viewed v)

/-- The setter argument convention lib.rs selects for a classified shape. -/
def setter_arg : FieldType → SetArg
  | FieldType.Vector inner_type => SetArg.IterInto inner_type
  | _ => SetArg.IntoField

/-- The declared type `u32`. -/
def u32ty : SynType := SynType.Path [PathSeg.mk "u32" PathArgs.NoArgs]

/-- The declared type `u8`. -/
def u8ty : SynType := SynType.Path [PathSeg.mk "u8" PathArgs.NoArgs]

/-- The declared type `Option<u8>`. -/
def optU8ty : SynType :=
  SynType.Path [PathSeg.mk "Option" (PathArgs.AngleBracketed [GenArg.TypeArg u8ty])]

/-- The default configuration with `set(strip_option)` applied. -/
def conf_strip : FieldConf :=
  { FieldConf.default with set := { FieldConf.default.set with strip_option := true } }

/-- The default configuration with ordinal `n` (the effect of `ord(_n)`). -/
def conf_ord (n : Nat) : FieldConf :=
  { FieldConf.default with ord := { FieldConf.default.ord with number := some n } }

/-- A struct with two fields that carry the same serial number `_0`. -/
def dup_ord_property : PropertyDef :=
  { name := "S"
    fields := [ { ident := "a", ty := u32ty, conf := conf_ord 0 },
                { ident := "b", ty := u32ty, conf := conf_ord 0 } ] }

/-- A struct with two ordinal fields, `a` carrying `_1` and `b` carrying
`_0`. -/
def ord_example_property : PropertyDef :=
  { name := "T"
    fields := [ { ident := "a", ty := u32ty, conf := conf_ord 1 },
                { ident := "b", ty := u32ty, conf := conf_ord 0 } ] }

/-- C4: the claim states that classification is total and never fails or
panics, falling back to `Opaque`/`Unhandled`, explicitly including a `Vec` or
`Option` path whose sole segment carries no angle-bracketed type arguments.
The code's own `unreachable!()` assertion in those arms is wrong: on the
parseable field types `Vec` and `Option` (no arguments) `from_type` panics,
while an unrecognized single-segment name does fall back to `Unhandled`. -/
theorem C4_classifier_panics_on_bare_wrapper :
    FieldType.from_type (SynType.Path [PathSeg.mk "Vec" PathArgs.NoArgs]) =
      Except.error () ∧
    FieldType.from_type (SynType.Path [PathSeg.mk "Option" PathArgs.NoArgs]) =
      Except.error () ∧
    FieldType.from_type (SynType.Path [PathSeg.mk "Foo" PathArgs.NoArgs]) =
      Except.ok FieldType.Unhandled :=
  ⟨rfl, rfl, rfl⟩

/-- C1: the claim states that with `strip_option` set, the setter of an
`Option`-shaped field accepts a value convertible to the inner type and wraps
it.  The parsed `strip_option` flag is never read by the synthesizer: on the
field `x : Option<u8>` with `set(strip_option)` resolved, the emitted setter
still has the `IntoField` convention (one `T: Into<Option<u8>>` value, stored
by `val.into()` with no wrapping). -/
theorem C1_strip_option_has_no_effect :
    derive_property_for_field { ident := "x", ty := optU8ty, conf := conf_strip } =
      Except.ok
        [ { vis := VisTokens.PubCrate, name := "x",
            kind := MethodKind.Getter (GetType.Option_ [GenArg.TypeArg u8ty]) },
          { vis := VisTokens.PubCrate, name := "set_x",
            kind := MethodKind.Setter SetArg.IntoField SetTypeConf.Ref },
          { vis := VisTokens.PubCrate, name := "mut_x",
            kind := MethodKind.Mutter } ] :=
  rfl

/-- C2 counterexample: the claim states that a bare `skip` marker at crate
scope fails with a fatal error, but `apply_attrs` accepts it there and sets
`skip = true`. -/
theorem C2_counterexample_skip_accepted_at_crate_scope :
    FieldConf.apply_attrs FieldConf.default (SynMeta.MPath ["skip"]) PropertyType.Crate =
      Except.ok { FieldConf.default with skip := true } :=
  rfl

/-- C2 (amended): applying a bare `skip` marker succeeds at every scope --
crate and container included, with no scope check -- setting `skip = true`
and leaving every other sub-configuration untouched. -/
theorem C2_bare_skip_accepted_at_every_scope (conf : FieldConf) (prop_type : PropertyType) :
    FieldConf.apply_attrs conf (SynMeta.MPath ["skip"]) prop_type =
      Except.ok { conf with skip := true } :=
  rfl

/-- C9: a `Replace`-mode setter is `::core::mem::replace`: it returns exactly
the pre-call field value (the value any getter reading the field immediately
before the call observes), and leaves the field holding the converted new
value (what a subsequent get observes) -- in both the single-value and the
iterator-collecting form. -/
theorem C9_replace_setter_swaps (into : Value → Value) (v field : Value)
    (elem : SynType) (vs : List Value) :
    execSet SetArg.IntoField SetTypeConf.Replace into (SetInput.One v) field =
      some (into v, SetReturn.Prev field) ∧
    execSet (SetArg.IterInto elem) SetTypeConf.Replace into (SetInput.Many vs) field =
      some (Value.Arr (vs.map into), SetReturn.Prev field) :=
  ⟨rfl, rfl⟩

/-- C5: under `Auto` getter mode the emitted getter body is selected by
`GetType::from_field_type`, and its observable behavior coincides with the
spec's shape-directed description (`spec_auto_get`): scalars by copy, text as
a full read-only view, arrays and vectors as a read-only slice view, options
as an optional reference to the unchanged inner value (absent exactly when
the field is absent), and anything else as a read-only reference. -/
theorem C5_auto_getter_behavior (ft : FieldType) (v : Value) :
    evalGet (GetType.from_field_type ft) v = spec_auto_get ft v := by
  cases ft <;> cases v <;> rfl

/-- C8: the crate-default configuration is write-once and only while the
resolution counter is zero.  After any successful set, every further set
attempt fails -- including one with identical content; any set attempt while
the counter is nonzero fails; and any set attempt after a resolution
(`get_default_conf`, which increments the counter) fails. -/
theorem C8_crate_default_lifecycle (s s' : CrateState) (c : FieldConf)
    (h : set_default_conf c s = Except.ok s') :
    (∀ c' : FieldConf, set_default_conf c' s' = Except.error ()) ∧
    (∀ (t : CrateState) (d : FieldConf), t.call_count ≠ 0 →
      set_default_conf d t = Except.error ()) ∧
    (∀ (t : CrateState) (d : FieldConf),
      set_default_conf d (get_default_conf t).snd = Except.error ()) := by
  refine ⟨?_, ?_, ?_⟩
  · intro c'
    unfold set_default_conf at h ⊢
    by_cases h1 : s.crate_conf.isSome
    · simp [h1] at h
    · by_cases h2 : s.call_count > 0
      · simp [h1, h2] at h
      · simp [h1, h2] at h
        simp [← h]
  · intro t d ht
    unfold set_default_conf
    by_cases h1 : t.crate_conf.isSome
    · simp [h1]
    · simp [h1, Nat.pos_of_ne_zero ht]
  · intro t d
    unfold set_default_conf get_default_conf
    by_cases h1 : t.crate_conf.isSome
    · simp [h1]
    · simp [h1]

/-- C8 witness: starting from the fresh process state, the first set of the
crate default succeeds, and the theorem's conclusions hold at that state. -/
theorem C8_crate_default_lifecycle_witness :
    (∀ c' : FieldConf,
      set_default_conf c' { crate_conf := some FieldConf.default, call_count := 0 } =
        Except.error ()) ∧
    (∀ (t : CrateState) (d : FieldConf), t.call_count ≠ 0 →
      set_default_conf d t = Except.error ()) ∧
    (∀ (t : CrateState) (d : FieldConf),
      set_default_conf d (get_default_conf t).snd = Except.error ()) :=
  C8_crate_default_lifecycle CrateState.initial
    { crate_conf := some FieldConf.default, call_count := 0 } FieldConf.default rfl

/-- C10: a field with the fully defaulted configuration gets exactly three
methods, in order: a getter in `Auto` mode named by the bare field identifier,
a chain-by-mutable-reference (`Ref`) setter named `set_<field>`, and a mutable
accessor named `mut_<field>`; all three carry `pub(crate)` visibility. -/
theorem C10_default_conf_three_methods (nm : String) (ty : SynType) (ft : FieldType)
    (h : FieldType.from_type ty = Except.ok ft) :
    derive_property_for_field { ident := nm, ty := ty, conf := FieldConf.default } =
      Except.ok
        [ { vis := VisTokens.PubCrate, name := nm,
            kind := MethodKind.Getter (GetType.from_field_type ft) },
          { vis := VisTokens.PubCrate, name := "set_" ++ nm,
            kind := MethodKind.Setter (setter_arg ft) SetTypeConf.Ref },
          { vis := VisTokens.PubCrate, name := "mut_" ++ nm,
            kind := MethodKind.Mutter } ] := by
  unfold derive_property_for_field
  rw [h]
  cases ft <;>
    simp [FieldConf.default, VisibilityConf.to_ts, MethodNameConf.complete,
      setter_arg, String.append_empty, String.empty_append]

/-- C10 witness: the theorem at the concrete field `foo : u32`. -/
theorem C10_default_conf_three_methods_witness :
    derive_property_for_field { ident := "foo", ty := u32ty, conf := FieldConf.default } =
      Except.ok
        [ { vis := VisTokens.PubCrate, name := "foo",
            kind := MethodKind.Getter (GetType.from_field_type FieldType.Number) },
          { vis := VisTokens.PubCrate, name := "set_" ++ "foo",
            kind := MethodKind.Setter (setter_arg FieldType.Number) SetTypeConf.Ref },
          { vis := VisTokens.PubCrate, name := "mut_" ++ "foo",
            kind := MethodKind.Mutter } ] :=
  C10_default_conf_three_methods "foo" u32ty FieldType.Number rfl

/-- An element of a stable ordinal insertion is the inserted field or an
element of the old list. -/
theorem mem_insert_by_ord {x y : FieldDef} : ∀ {l : List FieldDef},
    y ∈ insert_by_ord x l → y = x ∨ y ∈ l
  | [], h => by
    simp [insert_by_ord] at h
    exact Or.inl h
  | z :: zs, h => by
    unfold insert_by_ord at h
    by_cases hz : ord_key z ≤ ord_key x
    · simp [hz] at h
      rcases h with h | h
      · exact Or.inr (by simp [h])
      · rcases mem_insert_by_ord h with h' | h'
        · exact Or.inl h'
        · exact Or.inr (by simp [h'])
    · simp [hz] at h
      rcases h with h | h | h
      · exact Or.inl h
      · exact Or.inr (by simp [h])
      · exact Or.inr (by simp [h])

/-- Stable ordinal insertion preserves sortedness by ordinal. -/
theorem pairwise_insert_by_ord {x : FieldDef} : ∀ {l : List FieldDef},
    l.Pairwise (fun f g => ord_key f ≤ ord_key g) →
    (insert_by_ord x l).Pairwise (fun f g => ord_key f ≤ ord_key g)
  | [], _ => by simp [insert_by_ord]
  | z :: zs, h => by
    rcases List.pairwise_cons.mp h with ⟨hz, hzs⟩
    unfold insert_by_ord
    by_cases hle : ord_key z ≤ ord_key x
    · simp only [hle, if_true]
      refine List.pairwise_cons.mpr ⟨?_, pairwise_insert_by_ord hzs⟩
      intro y hy
      rcases mem_insert_by_ord hy with h' | h'
      · exact h' ▸ hle
      · exact hz y h'
    · simp only [hle, if_false]
      refine List.pairwise_cons.mpr ⟨?_, h⟩
      intro y hy
      rcases List.mem_cons.mp hy with h' | h'
      · exact h' ▸ Nat.le_of_not_le hle
      · exact Nat.le_trans (Nat.le_of_not_le hle) (hz y h')

/-- `sort_by_ord` produces a list sorted ascending (weakly) by ordinal. -/
theorem sort_by_ord_pairwise (l : List FieldDef) :
    (sort_by_ord l).Pairwise (fun f g => ord_key f ≤ ord_key g) := by
  suffices h : ∀ (acc : List FieldDef),
      acc.Pairwise (fun f g => ord_key f ≤ ord_key g) →
      (l.foldl (fun a f => insert_by_ord f a) acc).Pairwise
        (fun f g => ord_key f ≤ ord_key g) by
    exact h [] (by simp)
  induction l with
  | nil => intro acc hacc; simpa using hacc
  | cons f rest ih =>
    intro acc hacc
    exact ih (insert_by_ord f acc) (pairwise_insert_by_ord hacc)

/-- A weakly sorted list whose adjacent pairs never share a serial number is
strictly ascending by ordinal. -/
theorem chain_lt_of_pairwise_of_no_dup : ∀ {l : List FieldDef},
    l.Pairwise (fun f g => ord_key f ≤ ord_key g) →
    has_same_serial_number l = false →
    List.Chain' (fun f g => ord_key f < ord_key g) l
  | [], _, _ => List.chain'_nil
  | [_], _, _ => List.chain'_singleton _
  | a :: b :: rest, hp, hd => by
    unfold has_same_serial_number at hd
    rcases Bool.or_eq_false_iff.mp hd with ⟨hab, hrest⟩
    rcases List.pairwise_cons.mp hp with ⟨ha, hp'⟩
    refine List.chain'_cons.mpr ⟨?_, chain_lt_of_pairwise_of_no_dup hp' hrest⟩
    exact Nat.lt_of_le_of_ne (ha b (by simp)) (by simpa using hab)

/-- The generated early-return `partial_cmp` chain computes the spec's
description: the first non-equal per-field comparison (with operands swapped
exactly on `desc` fields) is the overall result, and all-equal yields equal. -/
theorem gen_ord_cmp_eq_spec (pc : Value → Value → Option Ordering) :
    ∀ (l : List FieldDef) (self other : String → Value),
      gen_ord_cmp pc l self other = spec_ord_cmp pc l self other := by
  intro l self other
  induction l with
  | nil => rfl
  | cons f rest ih =>
    have hloc :
        (if f.conf.ord.sort_type.is_ascending then pc (self f.ident) (other f.ident)
         else pc (other f.ident) (self f.ident)) = spec_local_cmp pc f self other := by
      cases hst : f.conf.ord.sort_type <;>
        simp [spec_local_cmp, SortTypeConf.is_ascending, hst]
    have hstep : gen_ord_cmp pc (f :: rest) self other =
        if (if f.conf.ord.sort_type.is_ascending then pc (self f.ident) (other f.ident)
            else pc (other f.ident) (self f.ident)) ≠ some Ordering.eq
        then (if f.conf.ord.sort_type.is_ascending then pc (self f.ident) (other f.ident)
              else pc (other f.ident) (self f.ident))
        else gen_ord_cmp pc rest self other := rfl
    rw [hstep, hloc]
    by_cases hr : spec_local_cmp pc f self other = some Ordering.eq
    · rw [if_neg (by simp [hr]), ih]
      unfold spec_ord_cmp
      simp [List.find?, hr]
    · rw [if_pos hr]
      unfold spec_ord_cmp
      simp [List.find?, hr]

/-- C6: when `implement_traits` succeeds with an ordering impl, the ordinal
fields are compared in strictly ascending ordinal order, and the generated
comparison chain equals the spec's description: each field compared with
operands swapped exactly when it is `desc`, the first non-equal local
comparison being the overall result, and overall equality when every ordinal
field compares equal -- so a `desc` flag inverts only its own field's local
comparison. -/
theorem C6_generated_ordering (p : PropertyDef) (ordered : List FieldDef)
    (h : implement_traits p = Except.ok (some ordered)) :
    List.Chain' (fun f g => ord_key f < ord_key g) ordered ∧
    ∀ (pc : Value → Value → Option Ordering) (self other : String → Value),
      gen_ord_cmp pc ordered self other = spec_ord_cmp pc ordered self other := by
  unfold implement_traits at h
  by_cases h1 : (sort_by_ord (p.fields.filter (fun f => f.conf.ord.number.isSome))).isEmpty
  · simp [h1] at h
  · by_cases h2 : has_same_serial_number
        (sort_by_ord (p.fields.filter (fun f => f.conf.ord.number.isSome))) = true
    · simp [h1, h2] at h
    · simp [h1, h2] at h
      constructor
      · exact h ▸ chain_lt_of_pairwise_of_no_dup (sort_by_ord_pairwise _)
          (Bool.not_eq_true _ ▸ Bool.of_not_eq_true h2)
      · intro pc self other
        exact gen_ord_cmp_eq_spec pc ordered self other

/-- C6 witness: the theorem at a concrete struct whose ordinal fields sort to
`b` (`_0`) before `a` (`_1`). -/
theorem C6_generated_ordering_witness :
    List.Chain' (fun f g => ord_key f < ord_key g)
      [ { ident := "b", ty := u32ty, conf := conf_ord 0 },
        { ident := "a", ty := u32ty, conf := conf_ord 1 } ] ∧
    ∀ (pc : Value → Value → Option Ordering) (self other : String → Value),
      gen_ord_cmp pc
          [ { ident := "b", ty := u32ty, conf := conf_ord 0 },
            { ident := "a", ty := u32ty, conf := conf_ord 1 } ] self other =
        spec_ord_cmp pc
          [ { ident := "b", ty := u32ty, conf := conf_ord 0 },
            { ident := "a", ty := u32ty, conf := conf_ord 1 } ] self other :=
  C6_generated_ordering ord_example_property
    [ { ident := "b", ty := u32ty, conf := conf_ord 0 },
      { ident := "a", ty := u32ty, conf := conf_ord 1 } ] rfl

/-- C7 counterexample: the claim states the duplicate-ordinal failure occurs
before any method synthesis, but on a struct whose fields `a` and `b` both
carry `_0`, the execution trace synthesizes the accessor declarations of both
fields first and only then raises the duplicate-serial-number panic: the
failure is not the first step. -/
theorem C7_counterexample_synthesis_precedes_panic :
    derive_property_events dup_ord_property =
      [Event.SynthField "a", Event.SynthField "b", Event.DupOrdinalPanic] ∧
    (derive_property_events dup_ord_property).head? ≠ some Event.DupOrdinalPanic :=
  ⟨rfl, by decide⟩

/-- A list of synthesis events contains no field panic. -/
theorem any_is_field_panic_map (l : List FieldDef) :
    (l.map (fun f => Event.SynthField f.ident)).any Event.is_field_panic = false := by
  induction l with
  | nil => rfl
  | cons f rest ih => simp [List.any_cons, Event.is_field_panic, ih]

/-- All-successful per-field synthesis yields one synthesis event per
non-skipped field, in field order. -/
theorem synth_events_all_ok : ∀ (l : List FieldDef),
    (∀ f ∈ l, f.conf.skip = false → isOkB (derive_property_for_field f) = true) →
    synth_events l = (l.filter (fun f => !f.conf.skip)).map (fun f => Event.SynthField f.ident)
  | [], _ => rfl
  | f :: rest, h => by
    unfold synth_events
    by_cases hs : f.conf.skip = true
    · simp only [hs, if_true, List.filter_cons, Bool.not_true, if_false]
      exact synth_events_all_ok rest (fun g hg hgs => h g (List.mem_cons_of_mem _ hg) hgs)
    · have hs' : f.conf.skip = false := by simpa using hs
      have hf := h f (List.mem_cons_self _ _) hs'
      cases hder : derive_property_for_field f with
      | error e => rw [hder] at hf; simp [isOkB] at hf
      | ok ms =>
        simp only [hs', if_false, hder, List.filter_cons, Bool.not_false, if_true,
          List.map_cons]
        rw [synth_events_all_ok rest
          (fun g hg hgs => h g (List.mem_cons_of_mem _ hg) hgs)]
        simp

/-- A list with two adjacent equal serial numbers is nonempty. -/
theorem not_isEmpty_of_has_same : ∀ {l : List FieldDef},
    has_same_serial_number l = true → l.isEmpty = false
  | [], h => by simp [has_same_serial_number] at h
  | [_], h => by simp [has_same_serial_number] at h
  | _ :: _ :: _, _ => rfl

/-- When every non-skipped field synthesizes, the per-field fold of
`derive_property` succeeds. -/
theorem foldlM_fields_ok : ∀ (l : List FieldDef) (acc : List MethodDecl),
    (∀ f ∈ l, f.conf.skip = false → isOkB (derive_property_for_field f) = true) →
    ∃ ms, l.foldlM
      (fun r f => do
        if f.conf.skip then pure r
        else do
          let ms ← derive_property_for_field f
          pure (r ++ ms))
      acc = Except.ok ms
  | [], acc, _ => ⟨acc, rfl⟩
  | f :: rest, acc, h => by
    rw [List.foldlM_cons]
    by_cases hs : f.conf.skip = true
    · have := foldlM_fields_ok rest acc
        (fun g hg hgs => h g (List.mem_cons_of_mem _ hg) hgs)
      simpa [hs] using this
    · have hs' : f.conf.skip = false := by simpa using hs
      have hf := h f (List.mem_cons_self _ _) hs'
      cases hder : derive_property_for_field f with
      | error e => rw [hder] at hf; simp [isOkB] at hf
      | ok ms =>
        have := foldlM_fields_ok rest (acc ++ ms)
          (fun g hg hgs => h g (List.mem_cons_of_mem _ hg) hgs)
        simpa [hs', hder] using this

/-- C7 (amended): a duplicate serial number among two fields makes the whole
expansion fail with the duplicate-ordinal panic and produce no output, but
the failure is raised by `implement_traits` only after the per-field accessor
synthesis has already been performed for every non-skipped field. -/
theorem C7_dup_ordinal_fails_after_synthesis (p : PropertyDef)
    (hdup : has_same_serial_number
      (sort_by_ord (p.fields.filter (fun f => f.conf.ord.number.isSome))) = true)
    (hok : ∀ f ∈ p.fields, f.conf.skip = false →
      isOkB (derive_property_for_field f) = true) :
    derive_property_events p =
      (p.fields.filter (fun f => !f.conf.skip)).map (fun f => Event.SynthField f.ident) ++
        [Event.DupOrdinalPanic] ∧
    derive_property p = Except.error () := by
  have hse := synth_events_all_ok p.fields hok
  have hne := not_isEmpty_of_has_same hdup
  have htr : traits_events p = [Event.DupOrdinalPanic] := by
    simp [traits_events, hne, hdup]
  have himpl : implement_traits p = Except.error () := by
    simp [implement_traits, hne, hdup]
  constructor
  · have hnopanic :
        ((p.fields.filter (fun f => !f.conf.skip)).map
          (fun f => Event.SynthField f.ident)).any Event.is_field_panic = false :=
      any_is_field_panic_map _
    simp only [derive_property_events, hse, hnopanic, Bool.false_eq_true, if_false, htr]
  · unfold derive_property
    obtain ⟨ms, hms⟩ := foldlM_fields_ok p.fields [] hok
    rw [hms, himpl]
    rfl

/-- C7 witness: the amended theorem at the concrete duplicate-`_0` struct. -/
theorem C7_dup_ordinal_fails_after_synthesis_witness :
    derive_property_events dup_ord_property =
      (dup_ord_property.fields.filter (fun f => !f.conf.skip)).map
        (fun f => Event.SynthField f.ident) ++ [Event.DupOrdinalPanic] ∧
    derive_property dup_ord_property = Except.error () :=
  C7_dup_ordinal_fails_after_synthesis dup_ord_property rfl (by decide)

/-- Inversion for a successful `Except` bind. -/
theorem bind_ok_inv {α β : Type} {x : Except Unit α} {f : α → Except Unit β} {b : β}
    (h : x >>= f = Except.ok b) : ∃ a, x = Except.ok a ∧ f a = Except.ok b := by
  cases x with
  | ok a => exact ⟨a, rfl, h⟩
  | error e => exact Except.noConfusion h

/-- The collection loop accumulates exactly the path items and the name-value
items of the nested list, in order, behind the incoming accumulators. -/
theorem collect_params_exact : ∀ (nested : List SynNested) (pp0 : List (List String))
    (nvp0 : List (List String × String)) (pp : List (List String))
    (nvp : List (List String × String)),
    collect_params nested pp0 nvp0 = Except.ok (pp, nvp) →
    pp = pp0 ++ nested.filterMap path_of ∧ nvp = nvp0 ++ nested.filterMap nv_of
  | [], pp0, nvp0, pp, nvp, h => by
    unfold collect_params at h
    injection h with h
    injection h with h1 h2
    simp [← h1, ← h2]
  | SynNested.MetaItem (SynMeta.MPath p) :: rest, pp0, nvp0, pp, nvp, h => by
    unfold collect_params at h
    cases hcp : pp0.contains p with
    | true => rw [hcp] at h; exact Except.noConfusion h
    | false =>
      rw [hcp] at h
      obtain ⟨h1, h2⟩ := collect_params_exact rest (pp0 ++ [p]) nvp0 pp nvp (by simpa using h)
      constructor
      · rw [h1]; simp [path_of, List.filterMap_cons]
      · rw [h2]; simp [nv_of, List.filterMap_cons]
  | SynNested.MetaItem (SynMeta.MNameValue p (SynLit.Str s)) :: rest, pp0, nvp0, pp, nvp, h => by
    unfold collect_params at h
    cases hcp : (nvp0.map Prod.fst).contains p with
    | true => rw [hcp] at h; exact Except.noConfusion h
    | false =>
      rw [hcp] at h
      obtain ⟨h1, h2⟩ := collect_params_exact rest pp0 (nvp0 ++ [(p, s)]) pp nvp (by simpa using h)
      constructor
      · rw [h1]; simp [path_of, List.filterMap_cons]
      · rw [h2]; simp [nv_of, List.filterMap_cons]
  | SynNested.MetaItem (SynMeta.MNameValue _ SynLit.OtherLit) :: _, _, _, _, _, h => by
    unfold collect_params at h
    exact Except.noConfusion h
  | SynNested.MetaItem (SynMeta.MList _ _) :: _, _, _, _, _, h => by
    unfold collect_params at h
    exact Except.noConfusion h
  | SynNested.LitItem _ :: _, _, _, _, _, h => by
    unfold collect_params at h
    exact Except.noConfusion h

/-- A successful single placement leaves every slot unchanged, except that it
may fill exactly the slot of a group the parameter matches, and only from
`none`. -/
theorem find_assign_main : ∀ (gs : List (List String)) (rs rs' : List (Option String))
    (p : List String), find_assign p gs rs = Except.ok rs' → ∀ i : Nat,
    rs'.getD i none = rs.getD i none ∨
    (rs.getD i none = none ∧ matches_group p (gs.getD i []) = true ∧
      (rs'.getD i none).isSome = true)
  | [], rs, rs', p, h, _ => by
    unfold find_assign at h
    exact Except.noConfusion h
  | _ :: _, [], rs', p, h, _ => by
    unfold find_assign at h
    exact Except.noConfusion h
  | g :: gs, r :: rs, rs', p, h, i => by
    unfold find_assign at h
    cases hfind : g.find? (fun o => p == [o]) with
    | some opt =>
      rw [hfind] at h
      cases r with
      | some _ => exact Except.noConfusion h
      | none =>
        injection h with h
        subst h
        match i with
        | 0 =>
          right
          refine ⟨rfl, ?_, rfl⟩
          have hmem := List.mem_of_find?_eq_some hfind
          have hpred := List.find?_some hfind
          exact List.any_eq_true.mpr ⟨opt, hmem, hpred⟩
        | Nat.succ j => left; rfl
    | none =>
      rw [hfind] at h
      cases hrec : find_assign p gs rs with
      | error e => rw [hrec] at h; exact Except.noConfusion h
      | ok rs2 =>
        rw [hrec] at h
        injection h with h
        subst h
        match i with
        | 0 => left; rfl
        | Nat.succ j =>
          have := find_assign_main gs rs rs2 p hrec j
          simpa using this

/-- Across a successful `check_path_params` fold, a slot is unchanged unless
some parameter matches its group, in which case it can only have been filled
starting from `none`. -/
theorem cpp_fold_main : ∀ (pp : List (List String)) (gs : List (List String))
    (res res' : List (Option String)),
    pp.foldlM (fun r p => find_assign p gs r) res = Except.ok res' → ∀ i : Nat,
    res'.getD i none = res.getD i none ∨
    ((res.getD i none).isSome = false ∧
      (∃ p ∈ pp, matches_group p (gs.getD i []) = true) ∧
      (res'.getD i none).isSome = true)
  | [], gs, res, res', h, i => by
    injection h with h
    subst h
    exact Or.inl rfl
  | p :: rest, gs, res, res', h, i => by
    rw [List.foldlM_cons] at h
    obtain ⟨res1, hstep, hfold⟩ := bind_ok_inv h
    rcases find_assign_main gs res res1 p hstep i with h1 | ⟨h1, h2, h3⟩
    · rcases cpp_fold_main rest gs res1 res' hfold i with h4 | ⟨h4, h5, h6⟩
      · exact Or.inl (h4.trans h1)
      · refine Or.inr ⟨?_, ?_, h6⟩
        · rw [← h1]; exact h4
        · obtain ⟨q, hq, hqm⟩ := h5
          exact ⟨q, List.mem_cons_of_mem _ hq, hqm⟩
    · rcases cpp_fold_main rest gs res1 res' hfold i with h4 | ⟨h4, h5, h6⟩
      · refine Or.inr ⟨by simpa using h1, ⟨p, List.mem_cons_self _ _, h2⟩, h4 ▸ h3⟩
      · rw [h3] at h4
        exact Bool.noConfusion h4

/-- A slot whose group no parameter matches survives the fold unchanged. -/
theorem cpp_fold_preserve (pp : List (List String)) (gs : List (List String))
    (res res' : List (Option String)) (i : Nat)
    (h : pp.foldlM (fun r p => find_assign p gs r) res = Except.ok res')
    (hnm : ∀ p ∈ pp, matches_group p (gs.getD i []) = false) :
    res'.getD i none = res.getD i none := by
  rcases cpp_fold_main pp gs res res' h i with h1 | ⟨_, ⟨p, hp, hpm⟩, _⟩
  · exact h1
  · rw [hnm p hp] at hpm
    exact Bool.noConfusion hpm

/-- A slot that is filled across the fold stays filled. -/
theorem cpp_fold_mono (pp : List (List String)) (gs : List (List String))
    (res res' : List (Option String)) (i : Nat)
    (h : pp.foldlM (fun r p => find_assign p gs r) res = Except.ok res')
    (hi : (res.getD i none).isSome = true) :
    (res'.getD i none).isSome = true := by
  rcases cpp_fold_main pp gs res res' h i with h1 | ⟨h1, _, _⟩
  · rw [h1]; exact hi
  · rw [hi] at h1; exact Bool.noConfusion h1

/-- Placing the `strip_option` word with the `set` group's option groups
always fills the second slot. -/
theorem find_assign_strip (res res' : List (Option String))
    (h : find_assign ["strip_option"] [VISIBILITY_OPTIONS, STRIP_OPTION] res =
      Except.ok res') :
    (res'.getD 1 none).isSome = true := by
  match res with
  | [] =>
    unfold find_assign at h
    exact Except.noConfusion h
  | [r] =>
    unfold find_assign at h
    have hfind : VISIBILITY_OPTIONS.find? (fun o => ["strip_option"] == [o]) = none := rfl
    rw [hfind] at h
    unfold find_assign at h
    exact Except.noConfusion h
  | r1 :: r2 :: rs =>
    unfold find_assign at h
    have hfind : VISIBILITY_OPTIONS.find? (fun o => ["strip_option"] == [o]) = none := rfl
    rw [hfind] at h
    unfold find_assign at h
    have hfind2 : STRIP_OPTION.find? (fun o => ["strip_option"] == [o]) =
        some "strip_option" := rfl
    rw [hfind2] at h
    cases r2 with
    | some _ => exact Except.noConfusion h
    | none =>
      injection h with h
      subst h
      rfl

/-- If the `strip_option` word is among the collected path parameters, a
successful `check_path_params` for the `set` group fills the second slot. -/
theorem cpp_strip_some : ∀ (pp : List (List String)) (res res' : List (Option String)),
    pp.foldlM (fun r p => find_assign p [VISIBILITY_OPTIONS, STRIP_OPTION] r) res =
      Except.ok res' →
    ["strip_option"] ∈ pp → (res'.getD 1 none).isSome = true
  | [], _, _, _, hmem => absurd hmem (List.not_mem_nil _)
  | p :: rest, res, res', h, hmem => by
    rw [List.foldlM_cons] at h
    obtain ⟨res1, hstep, hfold⟩ := bind_ok_inv h
    rcases List.mem_cons.mp hmem with heq | hmem'
    · subst heq
      exact cpp_fold_mono rest _ res1 res' 1 hfold (find_assign_strip res res1 hstep)
    · exact cpp_strip_some rest res1 res' hfold hmem'

/-- A successful name-value match returns its own recognized key, and the key
identifies the parameter's path. -/
theorem match_namevalue_key : ∀ (options : List (String × Option (List String)))
    (n : List String) (v : String) (kv : String × String),
    match_namevalue n v options = Except.ok kv → n = [kv.fst]
  | [], _, _, _, h => Except.noConfusion h
  | (k, some group) :: rest, n, v, kv, h => by
    unfold match_namevalue at h
    by_cases hk : (n == [k]) = true
    · rw [if_pos hk] at h
      have h' : (if group.contains v = true then Except.ok (k, v)
          else match_namevalue n v rest) = Except.ok kv := h
      by_cases hv : group.contains v = true
      · rw [if_pos hv] at h'
        injection h' with h'
        subst h'
        exact eq_of_beq hk
      · rw [if_neg hv] at h'
        exact match_namevalue_key rest n v kv h'
    · rw [if_neg hk] at h
      exact match_namevalue_key rest n v kv h
  | (k, none) :: rest, n, v, kv, h => by
    unfold match_namevalue at h
    by_cases hk : (n == [k]) = true
    · rw [if_pos hk] at h
      have h' : (Except.ok (k, v) : Except Unit (String × String)) = Except.ok kv := h
      injection h' with h'
      subst h'
      exact eq_of_beq hk
    · rw [if_neg hk] at h
      exact match_namevalue_key rest n v kv h

/-- Every key in the result of `check_namevalue_params` comes from a
name-value parameter whose path is that key. -/
theorem check_nv_fold_mem : ∀ (nvp : List (List String × String))
    (options : List (String × Option (List String))) (acc nvs : List (String × String)),
    nvp.foldlM
      (fun res pv => do
        let kv ← match_namevalue pv.fst pv.snd options
        pure (res ++ [kv]))
      acc = Except.ok nvs →
    ∀ kv ∈ nvs, kv ∈ acc ∨ ∃ pv ∈ nvp, pv.fst = [kv.fst]
  | [], _, acc, nvs, h, kv, hkv => by
    injection h with h
    subst h
    exact Or.inl hkv
  | pv :: rest, options, acc, nvs, h, kv, hkv => by
    rw [List.foldlM_cons] at h
    obtain ⟨res1, hstep, hfold⟩ := bind_ok_inv h
    obtain ⟨kv0, hm, hpure⟩ := bind_ok_inv hstep
    have hres1 : res1 = acc ++ [kv0] := by
      injection hpure with hpure
      exact hpure.symm
    subst hres1
    rcases check_nv_fold_mem rest options (acc ++ [kv0]) nvs hfold kv hkv with hin | ⟨pv', hpv', hfst⟩
    · rcases List.mem_append.mp hin with hin | hin
      · exact Or.inl hin
      · have : kv = kv0 := by simpa using hin
        subst this
        exact Or.inr ⟨pv, List.mem_cons_self _ _, match_namevalue_key options pv.fst pv.snd kv hm⟩
    · exact Or.inr ⟨pv', List.mem_cons_of_mem _ hpv', hfst⟩

/-- If no collected name-value parameter has path `[k]`, a successful
`check_namevalue_params` yields no entry for key `k`. -/
theorem get_nv_none_of_unmentioned (nvp : List (List String × String))
    (options : List (String × Option (List String))) (nvs : List (String × String))
    (k : String) (hchk : check_namevalue_params nvp options = Except.ok nvs)
    (hnm : ∀ pv ∈ nvp, pv.fst ≠ [k]) : get_nv nvs k = none := by
  unfold get_nv
  cases hf : nvs.find? (fun kv => kv.fst == k) with
  | none => rfl
  | some kv =>
    have hmem := List.mem_of_find?_eq_some hf
    have hpred := List.find?_some hf
    have hk : kv.fst = k := eq_of_beq hpred
    unfold check_namevalue_params at hchk
    rcases check_nv_fold_mem nvp options [] nvs hchk kv hmem with hin | ⟨pv, hpv, hfst⟩
    · exact absurd hin (List.not_mem_nil _)
    · exact absurd (hk ▸ hfst) (hnm pv hpv)

/-- When a group mentions no word of `opts`, none of its collected path
parameters matches that word group. -/
theorem not_matches_of_unmentioned (nested : List SynNested) (opts : List String)
    (pp : List (List String)) (hpp : pp = nested.filterMap path_of)
    (hm : mentions_word nested opts = false) :
    ∀ p ∈ pp, matches_group p opts = false := by
  subst hpp
  intro p hp
  unfold mentions_word at hm
  have := List.any_eq_false.mp hm p hp
  simpa using this

/-- When a group mentions no name-value key `k`, none of its collected
name-value parameters has path `[k]`. -/
theorem not_key_of_unmentioned (nested : List SynNested) (k : String)
    (nvp : List (List String × String)) (hnvp : nvp = nested.filterMap nv_of)
    (hm : mentions_key nested k = false) :
    ∀ pv ∈ nvp, pv.fst ≠ [k] := by
  subst hnvp
  intro pv hpv heq
  unfold mentions_key at hm
  have := List.any_eq_false.mp hm pv hpv
  simp [heq] at this

/-- The `ord` sort-order words carry no serial number. -/
theorem sort_words_no_ordinal : ∀ w ∈ SORT_TYPE_OPTIONS, ord_value [w] = none := by
  decide

/-- A successful `ord` scan returns the unique serial number encoded by the
path parameters (`none` when there is none, in which case the accumulator is
passed through), provided no option word itself looks like a serial number. -/
theorem ord_scan_number : ∀ (options : List String) (pt : PropertyType)
    (pp : List (List String)) (st0 : Option String) (n0 : Option Nat)
    (st : Option String) (n : Option Nat),
    (∀ w ∈ options, ord_value [w] = none) →
    ord_scan options pt pp st0 n0 = Except.ok (st, n) →
    (pp.findSome? ord_value = none ∧ n = n0) ∨
    (∃ m, pp.findSome? ord_value = some m ∧ n0 = none ∧ n = some m)
  | options, pt, [], st0, n0, st, n, _, h => by
    unfold ord_scan at h
    injection h with h
    injection h with h1 h2
    exact Or.inl ⟨rfl, h2.symm⟩
  | options, pt, p :: rest, st0, n0, st, n, hw, h => by
    unfold ord_scan at h
    match p, h with
    | [], h => exact Except.noConfusion h
    | _ :: _ :: _, h => exact Except.noConfusion h
    | [s], h =>
      have h : (if options.contains s = true then
            if st0.isSome = true then Except.error ()
            else ord_scan options pt rest (List.find? (fun opt => opt == s) options) n0
          else
            if (s.take 1 == "_") = true then
              if pt ≠ PropertyType.Field then Except.error ()
              else
                match (s.drop 1).toNat? with
                | some m => if n0.isSome = true then Except.error ()
                  else ord_scan options pt rest st0 (some m)
                | none => Except.error ()
            else Except.error ()) = Except.ok (st, n) := h
      by_cases hcon : options.contains s = true
      · rw [if_pos hcon] at h
        by_cases hst : st0.isSome = true
        · rw [if_pos hst] at h; exact Except.noConfusion h
        · rw [if_neg hst] at h
          have hmem : s ∈ options := by
            have := hcon
            simpa [List.contains] using this
          have hov : ord_value [s] = none := hw s hmem
          have hfs : ([s] :: rest).findSome? ord_value = rest.findSome? ord_value := by
            rw [List.findSome?_cons]
            rw [hov]
          rw [hfs]
          exact ord_scan_number options pt rest _ n0 st n hw h
      · rw [if_neg hcon] at h
        by_cases hus : (s.take 1 == "_") = true
        · rw [if_pos hus] at h
          by_cases hpt : pt ≠ PropertyType.Field
          · rw [if_pos hpt] at h; exact Except.noConfusion h
          · rw [if_neg hpt] at h
            cases htn : (s.drop 1).toNat? with
            | none => rw [htn] at h; exact Except.noConfusion h
            | some m =>
              rw [htn] at h
              have h : (if n0.isSome = true then Except.error ()
                  else ord_scan options pt rest st0 (some m)) = Except.ok (st, n) := h
              by_cases hn0 : n0.isSome = true
              · rw [if_pos hn0] at h; exact Except.noConfusion h
              · rw [if_neg hn0] at h
                have hn0' : n0 = none := by
                  cases n0 with
                  | none => rfl
                  | some _ => simp at hn0
                have hov : ord_value [s] = some m := by
                  show (if (s.take 1 == "_") = true then (s.drop 1).toNat? else none) =
                    some m
                  rw [if_pos hus, htn]
                have hfs : ([s] :: rest).findSome? ord_value = some m := by
                  rw [List.findSome?_cons, hov]
                rw [hfs]
                rcases ord_scan_number options pt rest st0 (some m) st n hw h with
                  ⟨_, h2⟩ | ⟨m', _, hcontra, _⟩
                · exact Or.inr ⟨m, rfl, hn0', h2⟩
                · exact Option.noConfusion hcontra
        · rw [if_neg hus] at h
          exact Except.noConfusion h

/-- A successful `ord` scan leaves the sort-order slot untouched when no path
parameter is a sort-order word. -/
theorem ord_scan_sort : ∀ (options : List String) (pt : PropertyType)
    (pp : List (List String)) (st0 : Option String) (n0 : Option Nat)
    (st : Option String) (n : Option Nat),
    ord_scan options pt pp st0 n0 = Except.ok (st, n) →
    (∀ p ∈ pp, matches_group p options = false) →
    st = st0
  | options, pt, [], st0, n0, st, n, h, _ => by
    unfold ord_scan at h
    injection h with h
    injection h with h1 h2
    exact h1.symm
  | options, pt, p :: rest, st0, n0, st, n, h, hnm => by
    unfold ord_scan at h
    match p, h with
    | [], h => exact Except.noConfusion h
    | _ :: _ :: _, h => exact Except.noConfusion h
    | [s], h =>
      have h : (if options.contains s = true then
            if st0.isSome = true then Except.error ()
            else ord_scan options pt rest (List.find? (fun opt => opt == s) options) n0
          else
            if (s.take 1 == "_") = true then
              if pt ≠ PropertyType.Field then Except.error ()
              else
                match (s.drop 1).toNat? with
                | some m => if n0.isSome = true then Except.error ()
                  else ord_scan options pt rest st0 (some m)
                | none => Except.error ()
            else Except.error ()) = Except.ok (st, n) := h
      by_cases hcon : options.contains s = true
      · exfalso
        have hmem : s ∈ options := by simpa [List.contains] using hcon
        have : matches_group [s] options = true :=
          List.any_eq_true.mpr ⟨s, hmem, by simp⟩
        rw [hnm [s] (List.mem_cons_self _ _)] at this
        exact Bool.noConfusion this
      · rw [if_neg hcon] at h
        by_cases hus : (s.take 1 == "_") = true
        · rw [if_pos hus] at h
          by_cases hpt : pt ≠ PropertyType.Field
          · rw [if_pos hpt] at h; exact Except.noConfusion h
          · rw [if_neg hpt] at h
            cases htn : (s.drop 1).toNat? with
            | none => rw [htn] at h; exact Except.noConfusion h
            | some m =>
              rw [htn] at h
              have h : (if n0.isSome = true then Except.error ()
                  else ord_scan options pt rest st0 (some m)) = Except.ok (st, n) := h
              by_cases hn0 : n0.isSome = true
              · rw [if_pos hn0] at h; exact Except.noConfusion h
              · rw [if_neg hn0] at h
                exact ord_scan_sort options pt rest st0 (some m) st n h
                  (fun q hq => hnm q (List.mem_cons_of_mem _ hq))
        · rw [if_neg hus] at h
          exact Except.noConfusion h

/-- Specification of a successful `parse_from_path_params` for the `ord`
group: the returned serial number is exactly the one the parameters encode,
and the sort slot is `none` when no sort word occurs. -/
theorem parse_from_path_params_spec (pp : List (List String)) (pt : PropertyType)
    (st : Option String) (n : Option Nat)
    (h : OrdFieldConf.parse_from_path_params pp SORT_TYPE_OPTIONS pt =
      Except.ok (st, n)) :
    n = pp.findSome? ord_value ∧
    ((∀ p ∈ pp, matches_group p SORT_TYPE_OPTIONS = false) → st = none) := by
  unfold OrdFieldConf.parse_from_path_params at h
  cases hscan : ord_scan SORT_TYPE_OPTIONS pt pp none none with
  | error e => rw [hscan] at h; exact Except.noConfusion h
  | ok sn =>
    rw [hscan] at h
    obtain ⟨st', n'⟩ := sn
    have h : (if (pt == PropertyType.Field && n'.isNone) = true then Except.error ()
        else Except.ok (st', n')) = Except.ok (st, n) := h
    by_cases hff : (pt == PropertyType.Field && n'.isNone) = true
    · rw [if_pos hff] at h; exact Except.noConfusion h
    · rw [if_neg hff] at h
      injection h with h
      injection h with h1 h2
      subst h1; subst h2
      constructor
      · rcases ord_scan_number SORT_TYPE_OPTIONS pt pp none none _ _
          sort_words_no_ordinal hscan with ⟨hf, hn⟩ | ⟨m, hf, _, hn⟩ <;>
          rw [hf, hn]
      · intro hnm
        exact ord_scan_sort SORT_TYPE_OPTIONS pt pp none none _ _ hscan hnm

/-- Frame lemma for the `"get"` arm: a successful application touches only
the `get` sub-configuration, and of it only the explicitly mentioned parts. -/
theorem apply_get_frame (conf conf' : FieldConf) (nested : List SynNested)
    (pp : List (List String)) (nvp : List (List String × String))
    (hc : collect_params nested [] [] = Except.ok (pp, nvp))
    (h : apply_get conf pp nvp = Except.ok conf') :
    get_frame conf conf' nested := by
  obtain ⟨hpp, hnvp⟩ := collect_params_exact nested [] [] pp nvp hc
  simp only [List.nil_append] at hpp hnvp
  unfold apply_get at h
  obtain ⟨paths, hpaths, h⟩ := bind_ok_inv h
  obtain ⟨nvs, hnvs, h⟩ := bind_ok_inv h
  obtain ⟨visc, hvis, h⟩ := bind_ok_inv h
  obtain ⟨namec, hname, h⟩ := bind_ok_inv h
  obtain ⟨typc, htyp, h⟩ := bind_ok_inv h
  injection h with h
  subst h
  refine ⟨rfl, rfl, rfl, rfl, ?_, ?_, ?_⟩
  · intro hm
    have hnm := not_matches_of_unmentioned nested VISIBILITY_OPTIONS pp hpp hm
    have hp0 : paths.getD 0 none = none := by
      unfold check_path_params at hpaths
      have := cpp_fold_preserve pp [VISIBILITY_OPTIONS]
        ([VISIBILITY_OPTIONS].map (fun _ => none)) paths 0 hpaths hnm
      simpa using this
    rw [hp0] at hvis
    have hv' : (Except.ok none : Except Unit (Option VisibilityConf)) =
        Except.ok visc := hvis
    injection hv' with hv'
    subst hv'
    cases namec <;> cases typc <;> rfl
  · intro hm1 hm2 hm3
    have hg1 : get_nv nvs "name" = none :=
      get_nv_none_of_unmentioned nvp
        [NAME_OPTION, PREFIX_OPTION, SUFFIX_OPTION, GET_TYPE_OPTIONS] nvs "name" hnvs
        (not_key_of_unmentioned nested "name" nvp hnvp hm1)
    have hg2 : get_nv nvs "prefix" = none :=
      get_nv_none_of_unmentioned nvp
        [NAME_OPTION, PREFIX_OPTION, SUFFIX_OPTION, GET_TYPE_OPTIONS] nvs "prefix" hnvs
        (not_key_of_unmentioned nested "prefix" nvp hnvp hm2)
    have hg3 : get_nv nvs "suffix" = none :=
      get_nv_none_of_unmentioned nvp
        [NAME_OPTION, PREFIX_OPTION, SUFFIX_OPTION, GET_TYPE_OPTIONS] nvs "suffix" hnvs
        (not_key_of_unmentioned nested "suffix" nvp hnvp hm3)
    unfold MethodNameConf.parse_from_input at hname
    rw [hg1, hg2, hg3] at hname
    have hn' : (Except.ok none : Except Unit (Option MethodNameConf)) =
        Except.ok namec := hname
    injection hn' with hn'
    subst hn'
    cases visc <;> cases typc <;> rfl
  · intro hm
    have hg : get_nv nvs "type" = none :=
      get_nv_none_of_unmentioned nvp
        [NAME_OPTION, PREFIX_OPTION, SUFFIX_OPTION, GET_TYPE_OPTIONS] nvs "type" hnvs
        (not_key_of_unmentioned nested "type" nvp hnvp hm)
    unfold GetTypeConf.parse_from_input at htyp
    rw [hg] at htyp
    have ht' : (Except.ok none : Except Unit (Option GetTypeConf)) =
        Except.ok typc := htyp
    injection ht' with ht'
    subst ht'
    cases visc <;> cases namec <;> rfl

/-- Frame lemma for the `"set"` arm: only the `set` sub-configuration is
touched; visibility, name and return-mode only when mentioned; and
`strip_option` is recomputed to whether the group mentions it. -/
theorem apply_set_frame (conf conf' : FieldConf) (nested : List SynNested)
    (pp : List (List String)) (nvp : List (List String × String))
    (hc : collect_params nested [] [] = Except.ok (pp, nvp))
    (h : apply_set conf pp nvp = Except.ok conf') :
    set_frame conf conf' nested := by
  obtain ⟨hpp, hnvp⟩ := collect_params_exact nested [] [] pp nvp hc
  simp only [List.nil_append] at hpp hnvp
  unfold apply_set at h
  obtain ⟨paths, hpaths, h⟩ := bind_ok_inv h
  obtain ⟨nvs, hnvs, h⟩ := bind_ok_inv h
  obtain ⟨visc, hvis, h⟩ := bind_ok_inv h
  obtain ⟨namec, hname, h⟩ := bind_ok_inv h
  obtain ⟨typc, htyp, h⟩ := bind_ok_inv h
  injection h with h
  subst h
  refine ⟨rfl, rfl, rfl, rfl, ?_, ?_, ?_, ?_⟩
  · intro hm
    have hnm := not_matches_of_unmentioned nested VISIBILITY_OPTIONS pp hpp hm
    have hp0 : paths.getD 0 none = none := by
      unfold check_path_params at hpaths
      have := cpp_fold_preserve pp [VISIBILITY_OPTIONS, STRIP_OPTION]
        ([VISIBILITY_OPTIONS, STRIP_OPTION].map (fun _ => none)) paths 0 hpaths hnm
      simpa using this
    rw [hp0] at hvis
    have hv' : (Except.ok none : Except Unit (Option VisibilityConf)) =
        Except.ok visc := hvis
    injection hv' with hv'
    subst hv'
    cases namec <;> cases typc <;> rfl
  · intro hm1 hm2 hm3
    have hg1 : get_nv nvs "name" = none :=
      get_nv_none_of_unmentioned nvp
        [NAME_OPTION, PREFIX_OPTION, SUFFIX_OPTION, SET_TYPE_OPTIONS] nvs "name" hnvs
        (not_key_of_unmentioned nested "name" nvp hnvp hm1)
    have hg2 : get_nv nvs "prefix" = none :=
      get_nv_none_of_unmentioned nvp
        [NAME_OPTION, PREFIX_OPTION, SUFFIX_OPTION, SET_TYPE_OPTIONS] nvs "prefix" hnvs
        (not_key_of_unmentioned nested "prefix" nvp hnvp hm2)
    have hg3 : get_nv nvs "suffix" = none :=
      get_nv_none_of_unmentioned nvp
        [NAME_OPTION, PREFIX_OPTION, SUFFIX_OPTION, SET_TYPE_OPTIONS] nvs "suffix" hnvs
        (not_key_of_unmentioned nested "suffix" nvp hnvp hm3)
    unfold MethodNameConf.parse_from_input at hname
    rw [hg1, hg2, hg3] at hname
    have hn' : (Except.ok none : Except Unit (Option MethodNameConf)) =
        Except.ok namec := hname
    injection hn' with hn'
    subst hn'
    cases visc <;> cases typc <;> rfl
  · intro hm
    have hg : get_nv nvs "type" = none :=
      get_nv_none_of_unmentioned nvp
        [NAME_OPTION, PREFIX_OPTION, SUFFIX_OPTION, SET_TYPE_OPTIONS] nvs "type" hnvs
        (not_key_of_unmentioned nested "type" nvp hnvp hm)
    unfold SetTypeConf.parse_from_input at htyp
    rw [hg] at htyp
    have ht' : (Except.ok none : Except Unit (Option SetTypeConf)) =
        Except.ok typc := htyp
    injection ht' with ht'
    subst ht'
    cases visc <;> cases namec <;> rfl
  · show (paths.getD 1 none).isSome = mentions_word nested STRIP_OPTION
    cases hms : mentions_word nested STRIP_OPTION with
    | false =>
      have hnm := not_matches_of_unmentioned nested STRIP_OPTION pp hpp hms
      have hp1 : paths.getD 1 none = none := by
        unfold check_path_params at hpaths
        have := cpp_fold_preserve pp [VISIBILITY_OPTIONS, STRIP_OPTION]
          ([VISIBILITY_OPTIONS, STRIP_OPTION].map (fun _ => none)) paths 1 hpaths hnm
        simpa using this
      rw [hp1]
      rfl
    | true =>
      unfold mentions_word at hms
      obtain ⟨x, hx, hxm⟩ := List.any_eq_true.mp hms
      have hxe : x = ["strip_option"] := by
        simpa [matches_group, STRIP_OPTION] using hxm
      subst hxe
      have hmem : ["strip_option"] ∈ pp := hpp ▸ hx
      unfold check_path_params at hpaths
      exact cpp_strip_some pp _ paths hpaths hmem

/-- Frame lemma for the `"mut"` arm. -/
theorem apply_mut_frame (conf conf' : FieldConf) (nested : List SynNested)
    (pp : List (List String)) (nvp : List (List String × String))
    (hc : collect_params nested [] [] = Except.ok (pp, nvp))
    (h : apply_mut conf pp nvp = Except.ok conf') :
    mut_frame conf conf' nested := by
  obtain ⟨hpp, hnvp⟩ := collect_params_exact nested [] [] pp nvp hc
  simp only [List.nil_append] at hpp hnvp
  unfold apply_mut at h
  obtain ⟨paths, hpaths, h⟩ := bind_ok_inv h
  obtain ⟨nvs, hnvs, h⟩ := bind_ok_inv h
  obtain ⟨visc, hvis, h⟩ := bind_ok_inv h
  obtain ⟨namec, hname, h⟩ := bind_ok_inv h
  injection h with h
  subst h
  refine ⟨rfl, rfl, rfl, rfl, ?_, ?_⟩
  · intro hm
    have hnm := not_matches_of_unmentioned nested VISIBILITY_OPTIONS pp hpp hm
    have hp0 : paths.getD 0 none = none := by
      unfold check_path_params at hpaths
      have := cpp_fold_preserve pp [VISIBILITY_OPTIONS]
        ([VISIBILITY_OPTIONS].map (fun _ => none)) paths 0 hpaths hnm
      simpa using this
    rw [hp0] at hvis
    have hv' : (Except.ok none : Except Unit (Option VisibilityConf)) =
        Except.ok visc := hvis
    injection hv' with hv'
    subst hv'
    cases namec <;> rfl
  · intro hm1 hm2 hm3
    have hg1 : get_nv nvs "name" = none :=
      get_nv_none_of_unmentioned nvp
        [NAME_OPTION, PREFIX_OPTION, SUFFIX_OPTION] nvs "name" hnvs
        (not_key_of_unmentioned nested "name" nvp hnvp hm1)
    have hg2 : get_nv nvs "prefix" = none :=
      get_nv_none_of_unmentioned nvp
        [NAME_OPTION, PREFIX_OPTION, SUFFIX_OPTION] nvs "prefix" hnvs
        (not_key_of_unmentioned nested "prefix" nvp hnvp hm2)
    have hg3 : get_nv nvs "suffix" = none :=
      get_nv_none_of_unmentioned nvp
        [NAME_OPTION, PREFIX_OPTION, SUFFIX_OPTION] nvs "suffix" hnvs
        (not_key_of_unmentioned nested "suffix" nvp hnvp hm3)
    unfold MethodNameConf.parse_from_input at hname
    rw [hg1, hg2, hg3] at hname
    have hn' : (Except.ok none : Except Unit (Option MethodNameConf)) =
        Except.ok namec := hname
    injection hn' with hn'
    subst hn'
    cases visc <;> rfl

/-- Frame lemma for the `"ord"` arm: only the `ord` sub-configuration is
touched; the sort direction only when mentioned; and the ordinal is
recomputed to the serial number the group encodes. -/
theorem apply_ord_frame (conf conf' : FieldConf) (nested : List SynNested)
    (pp : List (List String)) (nvp : List (List String × String)) (pt : PropertyType)
    (hc : collect_params nested [] [] = Except.ok (pp, nvp))
    (h : apply_ord conf pp pt = Except.ok conf') :
    ord_frame conf conf' nested := by
  obtain ⟨hpp, hnvp⟩ := collect_params_exact nested [] [] pp nvp hc
  simp only [List.nil_append] at hpp hnvp
  unfold apply_ord at h
  obtain ⟨sn, hsn, h⟩ := bind_ok_inv h
  obtain ⟨stc, hst, h⟩ := bind_ok_inv h
  injection h with h
  subst h
  obtain ⟨st', n'⟩ := sn
  have hspec := parse_from_path_params_spec pp pt st' n' hsn
  refine ⟨rfl, rfl, rfl, rfl, ?_, ?_⟩
  · intro hm
    have hnm := not_matches_of_unmentioned nested SORT_TYPE_OPTIONS pp hpp hm
    have hst' : st' = none := hspec.2 hnm
    subst hst'
    have hs' : (Except.ok none : Except Unit (Option SortTypeConf)) =
        Except.ok stc := hst
    injection hs' with hs'
    subst hs'
    rfl
  · show n' = encoded_ordinal nested
    rw [hspec.1]
    unfold encoded_ordinal
    rw [hpp]

/-- C3 (amended): every successfully applied attribute group changes only the
sub-fields it explicitly mentions, except that a `set(...)` group always
resets `strip_option` to whether the group itself mentions `strip_option`,
and an `ord(...)` group always resets the ordinal to the serial number the
group itself encodes (`none`, clearing an inherited ordinal, when it encodes
none); bare `skip` sets only `skip`. -/
theorem C3_attr_groups_override_discipline (conf : FieldConf) (meta : SynMeta)
    (pt : PropertyType) (conf' : FieldConf)
    (h : FieldConf.apply_attrs conf meta pt = Except.ok conf') :
    apply_frame_spec conf meta conf' := by
  cases meta with
  | MPath p =>
    have h : (if (p == ["skip"]) = true then
        Except.ok { conf with skip := true }
      else Except.error ()) = Except.ok conf' := h
    by_cases hp : (p == ["skip"]) = true
    · rw [if_pos hp] at h
      injection h with h
      exact h.symm
    · rw [if_neg hp] at h
      exact Except.noConfusion h
  | MNameValue p l => exact Except.noConfusion h
  | MList lpath nested =>
    unfold FieldConf.apply_attrs at h
    obtain ⟨pn, hcol, h⟩ := bind_ok_inv h
    obtain ⟨pp, nvp⟩ := pn
    have h : (if (pp.isEmpty && nvp.isEmpty) = true then Except.error ()
        else
          match lpath with
          | [ident] =>
            match ident with
            | "get" => apply_get conf pp nvp
            | "set" => apply_set conf pp nvp
            | "mut" => apply_mut conf pp nvp
            | "ord" => apply_ord conf pp pt
            | _ => Except.error ()
          | _ => Except.error ()) = Except.ok conf' := h
    by_cases he : (pp.isEmpty && nvp.isEmpty) = true
    · rw [if_pos he] at h
      exact Except.noConfusion h
    · rw [if_neg he] at h
      refine ⟨?_, ?_, ?_, ?_⟩ <;> intro hl <;> subst hl
      · exact apply_get_frame conf conf' nested pp nvp hcol h
      · exact apply_set_frame conf conf' nested pp nvp hcol h
      · exact apply_mut_frame conf conf' nested pp nvp hcol h
      · exact apply_ord_frame conf conf' nested pp nvp pt hcol h

/-- C3 counterexample: the claim says a `set(...)` group that does not
mention `strip_option` leaves an inherited `strip_option = true` intact, but
applying `set(public)` to a configuration with `strip_option = true` resets
it to `false`. -/
theorem C3_counterexample_strip_option_reset :
    conf_strip.set.strip_option = true ∧
    mentions_word [SynNested.MetaItem (SynMeta.MPath ["public"])] STRIP_OPTION = false ∧
    (FieldConf.apply_attrs conf_strip
      (SynMeta.MList ["set"] [SynNested.MetaItem (SynMeta.MPath ["public"])])
      PropertyType.Field).map (fun c => c.set.strip_option) = Except.ok false :=
  ⟨rfl, rfl, rfl⟩

/-- C3 witness: the amended discipline at the concrete application of
`set(public)` to the default configuration with `strip_option` set. -/
theorem C3_attr_groups_override_discipline_witness :
    apply_frame_spec conf_strip
      (SynMeta.MList ["set"] [SynNested.MetaItem (SynMeta.MPath ["public"])])
      { FieldConf.default with
        set := { FieldConf.default.set with vis := VisibilityConf.Public } } :=
  C3_attr_groups_override_discipline conf_strip
    (SynMeta.MList ["set"] [SynNested.MetaItem (SynMeta.MPath ["public"])])
    PropertyType.Field
    { FieldConf.default with
      set := { FieldConf.default.set with vis := VisibilityConf.Public } }
    rfl
